import Mathlib

/-!
# Verification of the Time-Capsule Storage Engine (x/timecapsule)

A shallow embedding, in Lean 4, of the core of the time-capsule Cosmos SDK
module: the capsule data model and status machine (`types/capsule.go`), the
unlock predicates (`types/capsule.go`, `types/conditions.go`), the open
authorization decision (`keeper.canAccess`), the keeper operations
`CreateCapsule` / `OpenCapsule` / `ApproveTransfer` / `processExpiredCapsules`
(keeper sources), the AES-GCM encryption manager contract
(`crypto/encryption.go`, found inline with `ipfs/client.go`), and Shamir's
secret sharing over the 256-bit prime field (`crypto/shamir.go`).

Conventions of the embedding:
* Go `time.Time` values are modelled as `Int` (nanoseconds since epoch);
  Go's `t.After(u)` is `t > u` and `t.Before(u)` is `t < u`.
* Go `[]byte` is `List Nat` (each entry a byte value).
* Go `*big.Int` is `Int`; `big.Int.Mod` (Euclidean, result in `[0, m)` for
  `m > 0`) is Lean's `Int.emod` (`%`), which has the same convention.
* Fallible Go functions returning `(T, error)` are `Except String T`.
* A Go `nil` pointer field is `Option.none`.
-/

namespace TimeCapsule

/-- `types.CapsuleType` (constants `CapsuleType_*` in `types/capsule.go`). -/
inductive CapsuleType
  | UNKNOWN
  | SAFE
  | TIME_LOCK
  | CONDITIONAL
  | MULTI_SIG
  | DEAD_MANS_SWITCH
  deriving DecidableEq, Repr

/-- `types.CapsuleStatus` (constants `CapsuleStatus_*` in `types/capsule.go`). -/
inductive CapsuleStatus
  | UNKNOWN
  | ACTIVE
  | UNLOCKED
  | EXPIRED
  | CANCELLED
  deriving DecidableEq, Repr

/-- `types.TimeCapsule` (`types/capsule.go`): the persisted capsule record.
Only the fields read or written by the modelled keeper operations are kept;
byte strings are `List Nat` and times are `Int` nanoseconds. -/
structure Capsule where
  id : Nat
  owner : String
  recipient : String
  capsuleType : CapsuleType
  status : CapsuleStatus
  encryptedData : List Nat
  dataHash : String
  encryptionAlgo : String
  ipfsHash : String
  dataSize : Int
  storageType : String
  unlockTime : Option Int
  conditionContract : String
  requiredSigs : Nat
  threshold : Nat
  totalShares : Nat
  shareHolders : List String
  createdAt : Int
  updatedAt : Int
  expiresAt : Option Int
  lastActivity : Option Int
  inactivityPeriod : Nat
  deriving DecidableEq, Repr

/-- `TimeCapsule.IsUnlockable` (`types/capsule.go`): whether the capsule can
be unlocked at block time `blockTime`.  The Go receiver reads
`ctx.BlockTime()`; here the block time is an explicit argument.
`ctx.BlockTime().After(*tc.UnlockTime)` is the strict comparison
`blockTime > unlockTime`. -/
def Capsule.isUnlockable (tc : Capsule) (blockTime : Int) : Bool :=
  if tc.status ≠ CapsuleStatus.ACTIVE then false
  else
    match tc.capsuleType with
    | CapsuleType.SAFE => true
    | CapsuleType.TIME_LOCK =>
        match tc.unlockTime with
        | none => false
        | some u => blockTime > u
    | CapsuleType.DEAD_MANS_SWITCH =>
        match tc.lastActivity with
        | none => false
        | some la =>
            if tc.inactivityPeriod = 0 then false
            else blockTime > la + (tc.inactivityPeriod : Int) * 1000000000
    | CapsuleType.CONDITIONAL => false
    | CapsuleType.MULTI_SIG => false
    | CapsuleType.UNKNOWN => false

/-- `types.TimeCondition` (`types/conditions.go`). -/
structure TimeCondition where
  unlockTime : Int
  timezone : String
  deriving DecidableEq, Repr

/-- `TimeCondition.Evaluate` (`types/conditions.go`):
`ctx.BlockTime().After(tc.UnlockTime)`, again the strict comparison. -/
def TimeCondition.evaluate (tc : TimeCondition) (blockTime : Int) : Bool :=
  blockTime > tc.unlockTime

/-- `Keeper.canAccess` (keeper source): whether `accessor` may access the
capsule.  The Go function takes a `context.Context` it never uses; the
decision reads only the capsule and the accessor. -/
def canAccess (capsule : Capsule) (accessor : String) : Bool :=
  if capsule.owner = accessor ∧ capsule.capsuleType = CapsuleType.SAFE then true
  else if capsule.recipient = accessor then true
  else if capsule.capsuleType = CapsuleType.DEAD_MANS_SWITCH ∧
          capsule.recipient = accessor then true
  else false

/-- A convenient fully-populated ACTIVE TimeLock capsule used by concrete
counterexamples; `unlockTime = 60 s` after `createdAt = 0`. -/
def timeLockExample : Capsule :=
  { id := 1
    owner := "alice"
    recipient := "bob"
    capsuleType := CapsuleType.TIME_LOCK
    status := CapsuleStatus.ACTIVE
    encryptedData := [1, 2, 3]
    dataHash := "h"
    encryptionAlgo := "AES-256-GCM"
    ipfsHash := ""
    dataSize := 5
    storageType := "blockchain"
    unlockTime := some 60000000000
    conditionContract := ""
    requiredSigs := 0
    threshold := 2
    totalShares := 3
    shareHolders := ["masternode-0", "masternode-1", "masternode-2"]
    createdAt := 0
    updatedAt := 0
    expiresAt := none
    lastActivity := none
    inactivityPeriod := 0 }

/-- The same capsule with kind `SAFE` (used to test Safe authorization). -/
def safeExample : Capsule :=
  { timeLockExample with capsuleType := CapsuleType.SAFE }

end TimeCapsule

namespace TimeCapsule

/-! ## Keeper state model

The keeper's `cosmossdk.io/collections` maps are modelled as association
lists.  A message handler is a function `... → Except String (result ×
KeeperState)`; per Cosmos SDK semantics an `error` return rolls back every
write of the transaction, so an `Except.error` result carries no state. -/

/-- Association-list lookup (`collections.Map.Get`). -/
def lookupA {κ α : Type} [DecidableEq κ] : List (κ × α) → κ → Option α
  | [], _ => none
  | (k', v) :: r, k => if k = k' then some v else lookupA r k

/-- Association-list insert-or-replace (`collections.Map.Set`). -/
def setA {κ α : Type} [DecidableEq κ] : List (κ × α) → κ → α → List (κ × α)
  | [], k, v => [(k, v)]
  | (k', v') :: r, k, v =>
      if k = k' then (k, v) :: r else (k', v') :: setA r k v

/-- Key-set removal (`collections.KeySet.Remove`); removing an absent key is
not an error. -/
def removeK {κ : Type} [DecidableEq κ] (s : List κ) (k : κ) : List κ :=
  s.filter (fun k' => k' ≠ k)

/-- Key-set insertion (`collections.KeySet.Set`). -/
def addK {κ : Type} [DecidableEq κ] (s : List κ) (k : κ) : List κ :=
  if s.contains k then s else s ++ [k]

/-- `types.KeyShare` (`types/capsule.go`). -/
structure KeyShare where
  capsuleID : Nat
  shareIndex : Nat
  nodeID : String
  encryptedShare : List Nat
  createdAt : Int
  deriving DecidableEq, Repr

/-- `types.PendingTransfer` (`types/capsule.go`). -/
structure PendingTransfer where
  transferID : String
  capsuleID : Nat
  fromOwner : String
  toOwner : String
  requestTime : Int
  expiryTime : Int
  message : String
  requireApproval : Bool
  status : String
  deriving DecidableEq, Repr

/-- `types.TransferHistory` (`types/capsule.go`); the fields written by
`TransferCapsuleOwnership`. -/
structure TransferHistory where
  capsuleID : Nat
  transferID : String
  fromOwner : String
  toOwner : String
  transferType : String
  status : String
  transferTime : Int
  message : String
  blockHeight : Int
  txHash : String
  deriving DecidableEq, Repr

/-- `types.TransferStats` (`types/capsule.go`). -/
structure TransferStats where
  totalTransfers : Nat
  pendingTransfers : Nat
  completedTransfers : Nat
  rejectedTransfers : Nat
  batchTransfers : Nat
  lastTransferTime : Option Int
  deriving DecidableEq, Repr

/-- The keeper's persisted collections (`keeper.Keeper` in the keeper
source): capsules by id, the user→capsule key set, key shares by
(capsule, index), pending transfers and transfer history by id, and the
transfer-stats singleton. -/
structure KeeperState where
  capsules : List (Nat × Capsule)
  userCapsules : List (String × Nat)
  keyShares : List ((Nat × Nat) × KeyShare)
  pendingTransfers : List (String × PendingTransfer)
  transferHistory : List (String × TransferHistory)
  transferStats : TransferStats
  capsuleCounter : Nat
  deriving DecidableEq, Repr

/-- The ambient block context (`sdk.Context`): block time and height. -/
structure BlockCtx where
  blockTime : Int
  blockHeight : Int
  deriving DecidableEq, Repr

/-- `Keeper.updateTransferStats` (keeper source). -/
def updateTransferStats (ctx : BlockCtx) (st : KeeperState)
    (transferType : String) : KeeperState :=
  let stats := st.transferStats
  let stats := { stats with
    totalTransfers := stats.totalTransfers + 1,
    completedTransfers := stats.completedTransfers + 1 }
  let stats :=
    if transferType = "batch" then
      { stats with batchTransfers := stats.batchTransfers + 1 }
    else stats
  { st with transferStats :=
      { stats with lastTransferTime := some ctx.blockTime } }

/-- `Keeper.TransferCapsuleOwnership` (keeper source): re-own the capsule,
rewrite the user index, record a history entry and update the stats. -/
def transferCapsuleOwnership (ctx : BlockCtx) (st : KeeperState)
    (capsuleID : Nat) (fromOwner toOwner transferType message : String) :
    Except String KeeperState :=
  match lookupA st.capsules capsuleID with
  | none => .error "capsule not found"
  | some capsule =>
    let capsule := { capsule with owner := toOwner, updatedAt := ctx.blockTime }
    let st := { st with capsules := setA st.capsules capsuleID capsule }
    let st := { st with
      userCapsules := removeK st.userCapsules (fromOwner, capsuleID) }
    let st := { st with
      userCapsules := addK st.userCapsules (toOwner, capsuleID) }
    let transferID :=
      toString capsuleID ++ "-" ++ toString ctx.blockHeight ++ "-hash"
    let hist : TransferHistory :=
      { capsuleID := capsuleID
        transferID := transferID
        fromOwner := fromOwner
        toOwner := toOwner
        transferType := transferType
        status := "completed"
        transferTime := ctx.blockTime
        message := message
        blockHeight := ctx.blockHeight
        txHash := "hash" }
    let st := { st with
      transferHistory := setA st.transferHistory transferID hist }
    .ok (updateTransferStats ctx st transferType)

/-- `types.MsgApproveTransfer`. -/
structure MsgApproveTransfer where
  transferID : String
  capsuleID : Nat
  approver : String
  approved : Bool
  deriving DecidableEq, Repr

/-- `MsgServer.ApproveTransfer` (`keeper/msg_server.go`): approve or reject a
pending transfer.  The Go handler checks, in order: the pending transfer
exists; the block time is not strictly past `ExpiryTime` (on that path it
stores status "expired" and returns an error — a write the transaction
rollback then discards); the approver is the recipient.  It never inspects
the current `Status`, so an already-approved or already-rejected transfer is
processed again. -/
def approveTransfer (ctx : BlockCtx) (st : KeeperState)
    (msg : MsgApproveTransfer) : Except String (Bool × KeeperState) :=
  match lookupA st.pendingTransfers msg.transferID with
  | none => .error "pending transfer not found"
  | some pendingTransfer =>
    if ctx.blockTime > pendingTransfer.expiryTime then
      .error "transfer has expired"
    else if pendingTransfer.toOwner ≠ msg.approver then
      .error "only the recipient can approve the transfer"
    else if msg.approved then
      let pendingTransfer := { pendingTransfer with status := "approved" }
      match transferCapsuleOwnership ctx st msg.capsuleID
          pendingTransfer.fromOwner pendingTransfer.toOwner "approved"
          pendingTransfer.message with
      | .error e => .error e
      | .ok st =>
        let pts := setA st.pendingTransfers msg.transferID pendingTransfer
        .ok (true, { st with pendingTransfers := pts })
    else
      let pendingTransfer := { pendingTransfer with status := "rejected" }
      let pts := setA st.pendingTransfers msg.transferID pendingTransfer
      .ok (false, { st with pendingTransfers := pts })

/-- The per-capsule body of `Keeper.processExpiredCapsules` (keeper source):
an Active capsule expires only when it is a DeadMansSwitch whose
`ExpiresAt` is set and strictly before the block time; TimeLock capsules
never expire here (the Go switch case is an empty branch). -/
def tickCapsule (blockTime : Int) (c : Capsule) : Capsule :=
  let pastExpiry : Bool :=
    match c.expiresAt with
    | some e => blockTime > e
    | none => false
  if c.status = CapsuleStatus.ACTIVE ∧
     c.capsuleType = CapsuleType.DEAD_MANS_SWITCH ∧
     pastExpiry = true then
    { c with status := CapsuleStatus.EXPIRED, updatedAt := blockTime }
  else c

/-- `Keeper.processExpiredCapsules` (keeper source): walk the capsule map
and apply `tickCapsule`.  No other collection is read or written. -/
def processExpiredCapsules (blockTime : Int) (st : KeeperState) : KeeperState :=
  { st with capsules := st.capsules.map (fun p => (p.1, tickCapsule blockTime p.2)) }

/-- `Keeper.BeginBlocker` (keeper source): the per-block tick only calls
`processExpiredCapsules`; `EndBlocker` does nothing. -/
def beginBlocker (blockTime : Int) (st : KeeperState) : KeeperState :=
  processExpiredCapsules blockTime st

/-! ## Shamir secret sharing (`crypto/shamir.go`)

`*big.Int` values are modelled as `Int`; `big.Int.Mod` (Euclidean, result in
`[0, m)` for a positive modulus) is Lean's `Int.emod`. -/

/-- The 256-bit prime modulus hard-coded in `NewShamirSecretSharing`
(`crypto/shamir.go`), given there as this decimal string. -/
def shamirPrime : Nat :=
  115792089237316195423570985008687907853269984665640564039457584007913129639747

/-- The Shamir modulus as an `Int`, as used by the `big.Int` arithmetic. -/
def PInt : Int := (shamirPrime : Int)

/-- `crypto.Share`: one share `(X, Y)` of a split secret. -/
structure Share where
  x : Int
  y : Int
  deriving DecidableEq, Repr

/-- `big.Int.SetBytes`: interpret a byte slice as a big-endian unsigned
integer. -/
def beBytesToNat (bytes : List Nat) : Nat :=
  bytes.foldl (fun acc b => acc * 256 + b) 0

/-- Fuel-driven helper for `natToBytes` (structural recursion so that the
kernel can evaluate it). -/
def natToBytesAux : Nat → Nat → List Nat
  | 0, _ => []
  | fuel + 1, n =>
      if n = 0 then [] else natToBytesAux fuel (n / 256) ++ [n % 256]

/-- `big.Int.Bytes`: the minimal big-endian byte encoding of a non-negative
integer (empty for 0). -/
def natToBytes (n : Nat) : List Nat := natToBytesAux (n + 1) n

/-- The loop body of `ShamirSecretSharing.evaluatePolynomial`
(`crypto/shamir.go`): Horner-free accumulation `result += coeff * x^i` with
a reduction mod the prime after every step, carrying the running power of
`x`. -/
def evalPolyAux (x : Int) : List Int → Int → Int → Int
  | [], result, _ => result
  | c :: cs, result, xPower =>
      evalPolyAux x cs ((result + c * xPower) % PInt) ((xPower * x) % PInt)

/-- `ShamirSecretSharing.evaluatePolynomial` (`crypto/shamir.go`). -/
def evaluatePolynomial (coefficients : List Int) (x : Int) : Int :=
  evalPolyAux x coefficients 0 1

/-- `ShamirSecretSharing.SplitSecret` (`crypto/shamir.go`).  The Go function
draws `threshold - 1` uniformly random coefficients from
`rand.Int(rand.Reader, prime)`; the draws are passed here explicitly as
`randCoeffs` (the embedding is a function of the random tape).  Share `i`
carries `x = i + 1` and `y = f(i+1) mod p`. -/
def splitSecret (randCoeffs : List Int) (secret : List Nat)
    (threshold totalShares : Nat) : Except String (List Share) :=
  if threshold > totalShares then
    .error "threshold cannot be greater than total shares"
  else if threshold < 1 then .error "threshold must be at least 1"
  else if totalShares < 1 then .error "total shares must be at least 1"
  else
    let secretInt : Int := (beBytesToNat secret : Int)
    if PInt ≤ secretInt then .error "secret is too large for the prime field"
    else
      let coefficients := secretInt :: randCoeffs.take (threshold - 1)
      .ok ((List.range totalShares).map (fun (i : Nat) =>
        { x := ((i : Int) + 1), y := evaluatePolynomial coefficients ((i : Int) + 1) }))

/-- Extended Euclid with explicit fuel (so the kernel can evaluate it).  For
non-negative `a`, `b` it returns `(gcd a b, s, t)` with `a*s + b*t = gcd`.
It implements the contract of Go's `big.Int.ModInverse` dependency. -/
def egcdAux : Nat → Int → Int → Int × Int × Int
  | 0, a, _ => (a, 1, 0)
  | fuel + 1, a, b =>
      if b = 0 then (a, 1, 0)
      else
        let q := a / b
        let r := a % b
        let (g, x, y) := egcdAux fuel b r
        (g, y, x - q * y)

/-- `big.Int.ModInverse(g, n)`: the inverse of `g` modulo `n` in `[0, n)`,
or `none` when `g` and `n` are not relatively prime (Go returns `nil`). -/
def modInverse (g n : Int) : Option Int :=
  let t := egcdAux (n.toNat + 1) g n
  if t.1 = 1 then some (t.2.1 % n) else none

/-- The duplicate-`X` scan at the top of `CombineShares`
(`crypto/shamir.go`): Go inserts each `share.X.String()` into a set and
fails on a repeat; equivalently, some share's `X` equals a later share's
`X`. -/
def hasDupX : List Share → Bool
  | [] => false
  | s :: rest => rest.any (fun t => t.x = s.x) || hasDupX rest

/-- The inner loop of `CombineShares` for the share at position `i` with
x-coordinate `xi`: accumulate `numerator *= (0 - X_j)` and
`denominator *= (x_i - X_j)` over all positions `j ≠ i`, reducing mod the
prime after each multiplication. -/
def lagrangeStep (all : List (Nat × Share)) (i : Nat) (xi : Int) : Int × Int :=
  all.foldl
    (fun nd jt =>
      if jt.1 ≠ i then
        ((nd.1 * (-jt.2.x)) % PInt, (nd.2 * (xi - jt.2.x)) % PInt)
      else nd)
    (1, 1)

/-- The outer loop of `CombineShares`: for each share, build the Lagrange
coefficient at `x = 0` (failing if the denominator is not invertible) and
accumulate `secret += Y_i * lagrange_i (mod p)`. -/
def combineLoop (all : List (Nat × Share)) :
    List (Nat × Share) → Int → Except String Int
  | [], acc => .ok acc
  | (i, s) :: rest, acc =>
      let nd := lagrangeStep all i s.x
      match modInverse nd.2 PInt with
      | none => .error "failed to compute modular inverse"
      | some denomInv =>
          combineLoop all rest ((acc + s.y * ((nd.1 * denomInv) % PInt)) % PInt)

/-- `ShamirSecretSharing.CombineShares` (`crypto/shamir.go`): Lagrange
interpolation at `x = 0`, returning `secret.Bytes()`.  Note the function
does not know the split's threshold: it interpolates through however many
shares it is given. -/
def combineShares (shares : List Share) : Except String (List Nat) :=
  if shares.length < 1 then .error "need at least 1 share"
  else if hasDupX shares then .error "duplicate x coordinate found"
  else
    match combineLoop shares.enum shares.enum 0 with
    | .error e => .error e
    | .ok secret => .ok (natToBytes secret.toNat)

/-- `crypto.ShareToBytes` (`crypto/shamir.go`): serialize a share as
`[len_x >> 8][len_x][x bytes][len_y >> 8][len_y][y bytes]`. -/
def shareToBytes (s : Share) : List Nat :=
  let xB := natToBytes s.x.toNat
  let yB := natToBytes s.y.toNat
  ((xB.length / 256) % 256 :: xB.length % 256 :: xB) ++
    ((yB.length / 256) % 256 :: yB.length % 256 :: yB)

/-! ## Crypto primitives and the create/open pipeline

`crypto.EncryptionManager` (AES-256-GCM) and the host collaborators
(address codec, SHA-256, the AES-GCM core, IPFS) are modelled through
`HostFns`: the AEAD block-cipher core and the hash are opaque host
functions, while every length check, algorithm tag check, nonce flow and
integrity comparison — the logic the claims are about — is modelled
explicitly from the source. -/

/-- `crypto.EncryptedData` (`crypto` package): ciphertext plus metadata. -/
structure EncryptedData where
  data : List Nat
  nonce : List Nat
  salt : List Nat
  algorithm : String
  deriving DecidableEq, Repr

/-- Host-supplied primitive functions: `validAddr` is the bech32 address
codec (`addressCodec.StringToBytes` succeeding), `hash` is SHA-256 hex
(`crypto.HashData`), `gcmSeal`/`aeadOpen` are the AES-GCM
`Seal`/`Open` cores applied to (key, nonce, data), and
`ipfsStore`/`ipfsGet` are the IPFS manager calls. -/
structure HostFns where
  validAddr : String → Bool
  hash : List Nat → String
  gcmSeal : List Nat → List Nat → List Nat → List Nat
  aeadOpen : List Nat → List Nat → List Nat → Option (List Nat)
  ipfsStore : List Nat → Except String String
  ipfsGet : String → Except String (List Nat)

/-- `EncryptionManager.Encrypt` (`crypto` package): requires a 32-byte key,
draws a fresh 12-byte GCM nonce (passed in here as the random tape) and
seals.  The nonce is returned inside `EncryptedData`. -/
def encryptData (host : HostFns) (data key nonce : List Nat) :
    Except String EncryptedData :=
  if key.length ≠ 32 then .error "invalid key size"
  else if nonce.length ≠ 12 then .error "failed to generate nonce"
  else .ok { data := host.gcmSeal key nonce data
             nonce := nonce
             salt := []
             algorithm := "AES-256-GCM" }

/-- `EncryptionManager.Decrypt` (`crypto` package): checks the key size and
the algorithm tag, then calls `gcm.Open` with `encData.Nonce`.  Go's GCM
`Open` rejects a nonce whose length is not 12 (it panics; the SDK recovers
the panic into a failed transaction, modelled as an error). -/
def decryptData (host : HostFns) (encData : EncryptedData) (key : List Nat) :
    Except String (List Nat) :=
  if key.length ≠ 32 then .error "invalid key size"
  else if encData.algorithm ≠ "AES-256-GCM" then .error "unsupported algorithm"
  else if encData.nonce.length ≠ 12 then .error "incorrect nonce length given to GCM"
  else
    match host.aeadOpen key encData.nonce encData.data with
    | none => .error "failed to decrypt"
    | some plaintext => .ok plaintext

/-- `crypto.VerifyDataIntegrity` (`crypto` package): re-hash and compare. -/
def verifyIntegrity (host : HostFns) (data : List Nat) (expected : String) : Bool :=
  host.hash data == expected

/-- `TimeCapsule.Validate` (`types/capsule.go`).  The TIME_LOCK branch
compares `UnlockTime` against the WALL CLOCK `time.Now()`, not the block
time; `now` is that wall-clock reading, an explicit argument here.
`tc.UnlockTime.Before(time.Now())` is `u < now`. -/
def validateCapsule (validAddr : String → Bool) (now : Int) (tc : Capsule) :
    Except String Unit :=
  if tc.id = 0 then .error "capsule ID cannot be zero"
  else if ¬ validAddr tc.owner then .error "invalid owner address"
  else if tc.recipient ≠ "" ∧ ¬ validAddr tc.recipient then
    .error "invalid recipient address"
  else if tc.encryptedData.length = 0 then .error "encrypted data cannot be empty"
  else if tc.dataHash = "" then .error "data hash cannot be empty"
  else if tc.threshold > tc.totalShares then
    .error "threshold cannot be greater than total shares"
  else if tc.totalShares = 0 then .error "total shares must be greater than zero"
  else
    match tc.capsuleType with
    | CapsuleType.TIME_LOCK =>
        match tc.unlockTime with
        | none => .error "time-locked capsule must have unlock time"
        | some u =>
            if u < now then .error "unlock time must be in the future" else .ok ()
    | CapsuleType.CONDITIONAL =>
        if tc.conditionContract = "" then
          .error "conditional capsule must have condition contract"
        else .ok ()
    | CapsuleType.MULTI_SIG =>
        if tc.requiredSigs = 0 then
          .error "multi-sig capsule must have required signatures"
        else .ok ()
    | CapsuleType.DEAD_MANS_SWITCH =>
        if tc.inactivityPeriod = 0 then
          .error "dead man's switch capsule must have inactivity period"
        else .ok ()
    | _ => .ok ()

/-- `Keeper.distributeKeyShares` (keeper source): store one `KeyShare`
record per share under `(capsuleID, i)` with the placeholder node id
`masternode-i`. -/
def distributeKeyShares (ctx : BlockCtx) (st : KeeperState) (capsuleID : Nat)
    (shares : List Share) : KeeperState :=
  shares.enum.foldl
    (fun st is =>
      let record : KeyShare :=
        { capsuleID := capsuleID
          shareIndex := is.1
          nodeID := "masternode-" ++ toString is.1
          encryptedShare := shareToBytes is.2
          createdAt := ctx.blockTime }
      { st with keyShares := setA st.keyShares (capsuleID, is.1) record })
    st

/-- `Keeper.CreateCapsule` (keeper source).  The random tape (the fresh
32-byte key, the 12-byte GCM nonce, the Shamir coefficients) and the
wall-clock reading `now` used by `Validate` are explicit arguments.  The
capsule id comes from the collections sequence (`Next` returns the current
counter and increments it). -/
def createCapsule (host : HostFns) (now : Int) (key nonce : List Nat)
    (randCoeffs : List Int) (ctx : BlockCtx) (st : KeeperState)
    (owner recipient : String) (data : List Nat) (capsuleType : CapsuleType)
    (threshold totalShares : Nat) (unlockTime : Option Int)
    (conditionContract : String) : Except String (Capsule × KeeperState) :=
  if ¬ host.validAddr owner then .error "invalid owner address"
  else if recipient ≠ "" ∧ ¬ host.validAddr recipient then
    .error "invalid recipient address"
  else if data.length > 100 * 1024 * 1024 then .error "data too large"
  else
    let storageType := if data.length > 1024 * 1024 then "ipfs" else "blockchain"
    match encryptData host data key nonce with
    | .error e => .error e
    | .ok encryptedData =>
      let dataHash := host.hash data
      let stored : Except String (String × List Nat) :=
        if storageType = "ipfs" then
          match host.ipfsStore encryptedData.data with
          | .error _ => .error "failed to store data on IPFS"
          | .ok h => .ok (h, [])
        else .ok ("", encryptedData.data)
      match stored with
      | .error e => .error e
      | .ok hashData =>
        match splitSecret randCoeffs key threshold totalShares with
        | .error _ => .error "failed to create key shares"
        | .ok shares =>
          let capsuleID := st.capsuleCounter
          let capsule : Capsule :=
            { id := capsuleID
              owner := owner
              recipient := recipient
              capsuleType := capsuleType
              status := CapsuleStatus.ACTIVE
              encryptedData := hashData.2
              dataHash := dataHash
              encryptionAlgo := encryptedData.algorithm
              ipfsHash := hashData.1
              dataSize := (data.length : Int)
              storageType := storageType
              unlockTime := unlockTime
              conditionContract := conditionContract
              requiredSigs := 0
              threshold := threshold
              totalShares := totalShares
              shareHolders := List.replicate totalShares ""
              createdAt := ctx.blockTime
              updatedAt := ctx.blockTime
              expiresAt := none
              lastActivity :=
                if capsuleType = CapsuleType.DEAD_MANS_SWITCH then
                  some ctx.blockTime
                else none
              inactivityPeriod := 0 }
          match validateCapsule host.validAddr now capsule with
          | .error e => .error e
          | .ok _ =>
            let st := { st with capsuleCounter := st.capsuleCounter + 1 }
            let st := { st with capsules := setA st.capsules capsuleID capsule }
            let st := { st with userCapsules := addK st.userCapsules (owner, capsuleID) }
            let st := distributeKeyShares ctx st capsuleID shares
            .ok (capsule, st)

/-- `Keeper.OpenCapsule` (keeper source).  Checks run in source order:
existence, accessor address, Active status, `canAccess`, `IsUnlockable`,
share count against the capsule's threshold; then the key is rebuilt by
`CombineShares(providedShares[:capsule.Threshold])`, the ciphertext is
fetched per storage type, and decryption runs on an `EncryptedData` whose
`Nonce` field is NOT populated (the Go code builds the struct without it —
its own comment: "In a real implementation, you'd also store and retrieve
the nonce"). -/
def openCapsuleData (host : HostFns) (ctx : BlockCtx) (capsule : Capsule)
    (accessor : String) (providedShares : List Share) :
    Except String (List Nat) :=
  if ¬ host.validAddr accessor then .error "invalid accessor address"
  else if capsule.status ≠ CapsuleStatus.ACTIVE then
    .error "capsule already opened"
  else if ¬ canAccess capsule accessor then .error "unauthorized"
  else if ¬ capsule.isUnlockable ctx.blockTime then
    .error "capsule unlock conditions not met"
  else if providedShares.length < capsule.threshold then
    .error "insufficient shares"
  else
    match combineShares (providedShares.take capsule.threshold) with
    | .error _ => .error "failed to reconstruct key"
    | .ok encryptionKey =>
      match (if capsule.storageType = "ipfs" then
               host.ipfsGet capsule.ipfsHash
             else .ok capsule.encryptedData) with
      | .error _ => .error "failed to retrieve data from IPFS"
      | .ok encryptedDataBytes =>
        match decryptData host
            { data := encryptedDataBytes
              nonce := []
              salt := []
              algorithm := capsule.encryptionAlgo } encryptionKey with
        | .error _ => .error "failed to decrypt data"
        | .ok decryptedData =>
          if ¬ verifyIntegrity host decryptedData capsule.dataHash then
            .error "data integrity check failed"
          else .ok decryptedData

/-- `Keeper.OpenCapsule`, state level: look the capsule up, run the
per-capsule logic, and on success persist the `Unlocked` status and return
the plaintext. -/
def openCapsule (host : HostFns) (ctx : BlockCtx) (st : KeeperState)
    (capsuleID : Nat) (accessor : String) (providedShares : List Share) :
    Except String (List Nat × KeeperState) :=
  match lookupA st.capsules capsuleID with
  | none => .error "capsule not found"
  | some capsule =>
    match openCapsuleData host ctx capsule accessor providedShares with
    | .error e => .error e
    | .ok decryptedData =>
      let capsule := { capsule with
        status := CapsuleStatus.UNLOCKED, updatedAt := ctx.blockTime }
      let caps := setA st.capsules capsuleID capsule
      .ok (decryptedData, { st with capsules := caps })

/-- A host-function instantiation for concrete runs: every nonempty string
is a valid address, hashing is a constant tag, the AEAD core is the
identity. -/
def exampleHost : HostFns :=
  { validAddr := fun s => s ≠ ""
    hash := fun _ => "h"
    gcmSeal := fun _ _ d => d
    aeadOpen := fun _ _ d => some d
    ipfsStore := fun _ => .ok "QmExample"
    ipfsGet := fun _ => .error "unavailable" }

/-- The field `F_p` underlying the Shamir arithmetic. -/
abbrev Fp : Type := ZMod shamirPrime

/-- Fuel-driven modular exponentiation by repeated squaring (used to check
the primality certificate of `shamirPrime` inside the kernel). -/
def powModAux : Nat → Nat → Nat → Nat → Nat
  | 0, _, _, n => 1 % n
  | fuel + 1, a, e, n =>
      if e = 0 then 1 % n
      else
        let r := powModAux fuel ((a * a) % n) (e / 2) n
        if e % 2 = 1 then (r * a) % n else r

/-- `a ^ e mod n` for exponents below `2 ^ 600`. -/
def powMod (a e n : Nat) : Nat := powModAux 600 a e n

/-- Evaluation of a (low-to-high) coefficient list over `F_p` (the
specification-side counterpart of `evaluatePolynomial`). -/
def evalZ (l : List Fp) (x : Fp) : Fp :=
  l.foldr (fun c acc => c + x * acc) 0

/-- The polynomial with the given (low-to-high) coefficient list (a
specification-side object only; the code computes with `Int`). -/
noncomputable def polyOfList (l : List Fp) : Polynomial Fp :=
  l.foldr (fun c acc => Polynomial.C c + Polynomial.X * acc) 0

/-- A 32-byte all-zero key (a possible output of `GenerateKey`). -/
def key32 : List Nat := List.replicate 32 0

/-- A 12-byte all-zero GCM nonce (a possible random nonce). -/
def nonce12 : List Nat := List.replicate 12 0

/-- A pending transfer of capsule 7 from `"alice"` to `"bob"`, awaiting
approval, expiring at time 1000. -/
def examplePending : PendingTransfer :=
  { transferID := "t1"
    capsuleID := 7
    fromOwner := "alice"
    toOwner := "bob"
    requestTime := 0
    expiryTime := 1000
    message := ""
    requireApproval := true
    status := "pending" }

/-- A keeper state holding capsule 7 (owned by `"alice"`) and the pending
transfer `examplePending`. -/
def exampleState : KeeperState :=
  { capsules := [(7, { timeLockExample with id := 7 })]
    userCapsules := [("alice", 7)]
    keyShares := []
    pendingTransfers := [("t1", examplePending)]
    transferHistory := []
    transferStats :=
      { totalTransfers := 0
        pendingTransfers := 0
        completedTransfers := 0
        rejectedTransfers := 0
        batchTransfers := 0
        lastTransferTime := none }
    capsuleCounter := 7 }

/-- Block context inside the approval window. -/
def exampleCtx : BlockCtx := { blockTime := 10, blockHeight := 5 }

/-- `"bob"` approves the pending transfer `"t1"` of capsule 7. -/
def exampleApproveMsg : MsgApproveTransfer :=
  { transferID := "t1", capsuleID := 7, approver := "bob", approved := true }

/-- Discriminator for `Except` results. -/
def exceptIsOk {ε α : Type} : Except ε α → Bool
  | .ok _ => true
  | .error _ => false

/-! # Theorems -/

/-- An `Except` that is not ok is some error. -/
theorem error_of_isOk_false {ε α : Type} (x : Except ε α)
    (h : exceptIsOk x = false) : ∃ e, x = .error e := by
  cases x with
  | error e => exact ⟨e, rfl⟩
  | ok v => simp [exceptIsOk] at h

/-- `Decrypt` can never succeed on an `EncryptedData` whose nonce field was
left unset: the GCM nonce-size check (12 bytes) fails on the empty nonce. -/
theorem decryptData_empty_nonce (host : HostFns) (d : List Nat) (algo : String)
    (key pt : List Nat) :
    decryptData host
        { data := d, nonce := [], salt := [], algorithm := algo } key ≠
      .ok pt := by
  unfold decryptData
  by_cases h1 : key.length ≠ 32
  · simp [h1]
  · by_cases h2 : algo ≠ "AES-256-GCM" <;> simp [h1, h2]

/-- The per-capsule open logic never succeeds: decryption always receives an
empty nonce. -/
theorem openCapsuleData_isOk_false (host : HostFns) (ctx : BlockCtx)
    (capsule : Capsule) (accessor : String) (providedShares : List Share) :
    exceptIsOk (openCapsuleData host ctx capsule accessor providedShares) =
      false := by
  unfold openCapsuleData
  repeat' split
  all_goals first
    | rfl
    | (exfalso; exact decryptData_empty_nonce _ _ _ _ _ (by assumption))

/-- C1: `OpenCapsule` can NEVER return the stored plaintext, for any host
functions, state, capsule and presented shares: the AEAD nonce generated
during `CreateCapsule` is not persisted anywhere, and `OpenCapsule` rebuilds
`EncryptedData` without a nonce, so the GCM decryption step always fails
(the claim's decryption-succeeds-and-status-becomes-Unlocked scenario is
unreachable). -/
theorem C1_open_never_returns_plaintext (host : HostFns) (ctx : BlockCtx)
    (st : KeeperState) (capsuleID : Nat) (accessor : String)
    (providedShares : List Share) :
    ∃ e, openCapsule host ctx st capsuleID accessor providedShares =
      .error e := by
  cases h : lookupA st.capsules capsuleID with
  | none => exact ⟨"capsule not found", by simp [openCapsule, h]⟩
  | some capsule =>
    obtain ⟨e, he⟩ := error_of_isOk_false _
      (openCapsuleData_isOk_false host ctx capsule accessor providedShares)
    exact ⟨e, by simp [openCapsule, h, he]⟩

/-! ## C5: the TimeLock unlock predicate -/

/-- C5 counterexample: an Active TimeLock capsule with `unlock_time` set is
NOT unlockable at a block time exactly equal to `unlock_time`
(`IsUnlockable` uses Go's strict `After`), refuting the claim that at that
instant the capsule is unlockable. -/
theorem C5_counterexample :
    timeLockExample.status = CapsuleStatus.ACTIVE ∧
    timeLockExample.capsuleType = CapsuleType.TIME_LOCK ∧
    timeLockExample.unlockTime = some 60000000000 ∧
    timeLockExample.isUnlockable 60000000000 = false := by
  refine ⟨rfl, rfl, rfl, ?_⟩
  decide

/-- C5 (amended): for every Active TimeLock capsule with `unlock_time` set,
the time predicate holds exactly when the current block time is strictly
greater than `unlock_time`; at a block time exactly equal to `unlock_time`
the capsule is not yet unlockable.  `TimeCondition.Evaluate` applies the same
strict comparison. -/
theorem C5_timelock_strict :
    (∀ (tc : Capsule) (u blockTime : Int),
        tc.status = CapsuleStatus.ACTIVE →
        tc.capsuleType = CapsuleType.TIME_LOCK →
        tc.unlockTime = some u →
        (tc.isUnlockable blockTime = true ↔ blockTime > u)) ∧
    (∀ (cond : TimeCondition) (blockTime : Int),
        cond.evaluate blockTime = true ↔ blockTime > cond.unlockTime) := by
  constructor
  · intro tc u blockTime hst hty hu
    simp [Capsule.isUnlockable, hst, hty, hu, decide_eq_true_eq]
  · intro cond blockTime
    simp [TimeCondition.evaluate, decide_eq_true_eq]

/-- C5 witness: at one nanosecond past `unlock_time` the example TimeLock
capsule is unlockable, via `C5_timelock_strict`. -/
theorem C5_timelock_strict_witness :
    timeLockExample.isUnlockable 60000000001 = true :=
  (C5_timelock_strict.1 timeLockExample 60000000000 60000000001
    rfl rfl rfl).mpr (by decide)

/-! ## C6: open authorization (`canAccess`) -/

/-- C6 counterexample: the owner (`"alice"`, not the recipient) of an Active
TimeLock capsule is rejected by `canAccess`, although the claim's §4.8 table
permits the owner; and the recipient (`"bob"`) of a Safe capsule is accepted,
although the claim permits only the owner for Safe capsules. -/
theorem C6_counterexample :
    timeLockExample.capsuleType = CapsuleType.TIME_LOCK ∧
    timeLockExample.owner = "alice" ∧
    timeLockExample.recipient = "bob" ∧
    canAccess timeLockExample "alice" = false ∧
    safeExample.capsuleType = CapsuleType.SAFE ∧
    canAccess safeExample "bob" = true := by
  refine ⟨rfl, rfl, rfl, ?_, rfl, ?_⟩ <;> decide

/-- C6 (amended): `canAccess` permits an accessor exactly when the accessor
is the owner of a Safe capsule, or is the recipient (of a capsule of any
kind).  In particular the owner of a TimeLock or Conditional capsule is NOT
permitted unless they are also the recipient, and a Safe capsule's recipient
IS permitted.  The unlock predicate is enforced separately by
`IsUnlockable` in `OpenCapsule`, not by `canAccess`. -/
theorem C6_canAccess_characterization (capsule : Capsule) (accessor : String) :
    canAccess capsule accessor = true ↔
      ((capsule.owner = accessor ∧ capsule.capsuleType = CapsuleType.SAFE) ∨
        capsule.recipient = accessor) := by
  unfold canAccess
  by_cases h1 : capsule.owner = accessor ∧ capsule.capsuleType = CapsuleType.SAFE
  · simp [h1]
  · by_cases h2 : capsule.recipient = accessor <;> simp [h1, h2]

/-! ## C7: re-approval of a terminal pending transfer -/

/-- C7: `ApproveTransfer` never inspects the stored `Status`; re-issuing the
approval after a successful one is accepted again.  The first call succeeds
and leaves the pending transfer with status `"approved"` and one recorded
transfer; the identical second call succeeds again (it does not fail with
`AlreadyTerminal`) and re-executes the ownership transfer, incrementing the
transfer counter a second time. -/
theorem C7_reapproval_not_rejected :
    ∃ st1 st2 : KeeperState,
      approveTransfer exampleCtx exampleState exampleApproveMsg =
        .ok (true, st1) ∧
      (lookupA st1.pendingTransfers "t1").map PendingTransfer.status =
        some "approved" ∧
      st1.transferStats.totalTransfers = 1 ∧
      approveTransfer exampleCtx st1 exampleApproveMsg = .ok (true, st2) ∧
      st2.transferStats.totalTransfers = 2 := by
  refine ⟨_, _, rfl, ?_, ?_, rfl, ?_⟩ <;> decide

/-! ## C9: what the block tick actually does -/

/-- C9 counterexample: at block time 1000 the pending transfer `"t1"` has
`expires_at = 1000 ≤ block_time`, yet the tick processor leaves every
pending-transfer record untouched — its status remains `"pending"`, not
`Expired`. -/
theorem C9_counterexample :
    examplePending.expiryTime ≤ 1000 ∧
    (beginBlocker 1000 exampleState).pendingTransfers =
      exampleState.pendingTransfers ∧
    (lookupA (beginBlocker 1000 exampleState).pendingTransfers "t1").map
      PendingTransfer.status = some "pending" := by
  refine ⟨by decide, rfl, by decide⟩

/-- C9 (amended): the per-block tick never modifies pending-transfer
records (or any collection other than capsules); on capsules it applies
exactly this transition: an Active DeadMansSwitch capsule whose
`expires_at` is set and strictly earlier than the block time becomes
`Expired` (with `updated_at` refreshed), and every other capsule is left
unchanged.  Pending transfers are instead marked expired only inside
`ApproveTransfer`, and that write is rolled back with the failing
transaction. -/
theorem C9_tick_only_dms_capsules (blockTime : Int) (st : KeeperState) :
    (beginBlocker blockTime st).pendingTransfers = st.pendingTransfers ∧
    (beginBlocker blockTime st).transferHistory = st.transferHistory ∧
    (beginBlocker blockTime st).userCapsules = st.userCapsules ∧
    (beginBlocker blockTime st).keyShares = st.keyShares ∧
    (beginBlocker blockTime st).capsules =
      st.capsules.map (fun p => (p.1, tickCapsule blockTime p.2)) ∧
    (∀ (c : Capsule) (e : Int),
      c.status = CapsuleStatus.ACTIVE →
      c.capsuleType = CapsuleType.DEAD_MANS_SWITCH →
      c.expiresAt = some e → blockTime > e →
      tickCapsule blockTime c =
        { c with status := CapsuleStatus.EXPIRED, updatedAt := blockTime }) ∧
    (∀ c : Capsule,
      (c.status ≠ CapsuleStatus.ACTIVE ∨
       c.capsuleType ≠ CapsuleType.DEAD_MANS_SWITCH ∨
       (∀ e : Int, c.expiresAt = some e → blockTime ≤ e)) →
      tickCapsule blockTime c = c) := by
  refine ⟨rfl, rfl, rfl, rfl, rfl, ?_, ?_⟩
  · intro c e hst hty he hlt
    simp [tickCapsule, hst, hty, he, hlt]
  · intro c h
    unfold tickCapsule
    rcases h with h | h | h
    · simp [h]
    · simp [h]
    · rcases he : c.expiresAt with _ | e
      · simp [he]
      · simp [he, not_lt.mpr (h e he)]

/-- C9 witness: a concrete Active DeadMansSwitch capsule with
`expires_at = 50` is expired by the tick at block time 100. -/
theorem C9_tick_only_dms_capsules_witness :
    tickCapsule 100
        { timeLockExample with
            capsuleType := CapsuleType.DEAD_MANS_SWITCH,
            unlockTime := none,
            expiresAt := some 50 } =
      { timeLockExample with
          capsuleType := CapsuleType.DEAD_MANS_SWITCH,
          unlockTime := none,
          expiresAt := some 50,
          status := CapsuleStatus.EXPIRED,
          updatedAt := 100 } :=
  (C9_tick_only_dms_capsules 100 exampleState).2.2.2.2.2.1
    _ 50 rfl rfl rfl (by decide)

/-! ## C8: wall-clock dependence of CreateCapsule -/

/-- C8: `CreateCapsule` is not a function of the message and block context
alone.  With identical message (`TimeLock`, `unlock_time = 100`), identical
block context (`time 0, height 1`), identical state and identical random
tape, the call succeeds when the handling node's wall clock (`time.Now()`
inside `TimeCapsule.Validate`) reads 50 but fails when it reads 150. -/
theorem C8_create_depends_on_wall_clock :
    (∃ cap st', createCapsule exampleHost 50 key32 nonce12 [3]
        { blockTime := 0, blockHeight := 1 } exampleState
        "alice" "bob" [104, 105] CapsuleType.TIME_LOCK 2 3 (some 100) "" =
      .ok (cap, st')) ∧
    createCapsule exampleHost 150 key32 nonce12 [3]
        { blockTime := 0, blockHeight := 1 } exampleState
        "alice" "bob" [104, 105] CapsuleType.TIME_LOCK 2 3 (some 100) "" =
      .error "unlock time must be in the future" := by
  exact ⟨⟨_, _, rfl⟩, rfl⟩

/-! ## C10: how OpenCapsule consumes the presented share list -/

/-- The per-capsule open logic reads the presented list only through its
length check and its first `threshold` entries. -/
theorem openCapsuleData_take_threshold (host : HostFns) (ctx : BlockCtx)
    (cap : Capsule) (accessor : String) (s1 s2 : List Share)
    (h1 : cap.threshold ≤ s1.length) (h2 : cap.threshold ≤ s2.length)
    (ht : s1.take cap.threshold = s2.take cap.threshold) :
    openCapsuleData host ctx cap accessor s1 =
      openCapsuleData host ctx cap accessor s2 := by
  have e1 : (s1.length < cap.threshold) = False :=
    eq_false (Nat.not_lt.mpr h1)
  have e2 : (s2.length < cap.threshold) = False :=
    eq_false (Nat.not_lt.mpr h2)
  simp only [openCapsuleData, e1, e2, ht]

/-- The per-capsule open logic never reads `share_holders`. -/
theorem openCapsuleData_ignores_shareHolders (host : HostFns) (ctx : BlockCtx)
    (cap : Capsule) (accessor : String) (shares : List Share)
    (sh' : List String) :
    openCapsuleData host ctx { cap with shareHolders := sh' } accessor shares =
      openCapsuleData host ctx cap accessor shares := by
  cases cap
  rfl

/-- C10: (i) the outcome of `OpenCapsule` depends on the presented share
list only through its first `threshold` entries (given enough shares were
presented); (ii) the returned plaintext/error does not depend on the
capsule's `share_holders` nor on ANY other piece of keeper state (in
particular not on the stored `KeyShare` records): two states carrying the
same capsule up to `share_holders` give identical outcomes; (iii) a
duplicated x-coordinate among the first `threshold` presented shares makes
the open fail with the key-reconstruction error even though sufficiently
many distinct valid shares appear in the list (positions 0 and 2 combine to
the split secret 5). -/
theorem C10_only_first_threshold_shares :
    (∀ (host : HostFns) (ctx : BlockCtx) (st : KeeperState)
       (capsuleID : Nat) (accessor : String) (s1 s2 : List Share)
       (cap : Capsule),
        lookupA st.capsules capsuleID = some cap →
        cap.threshold ≤ s1.length → cap.threshold ≤ s2.length →
        s1.take cap.threshold = s2.take cap.threshold →
        openCapsule host ctx st capsuleID accessor s1 =
          openCapsule host ctx st capsuleID accessor s2) ∧
    (∀ (host : HostFns) (ctx : BlockCtx) (st st2 : KeeperState)
       (capsuleID : Nat) (accessor : String) (shares : List Share)
       (cap : Capsule) (sh' : List String),
        lookupA st.capsules capsuleID = some cap →
        lookupA st2.capsules capsuleID =
          some { cap with shareHolders := sh' } →
        Except.map Prod.fst (openCapsule host ctx st2 capsuleID accessor shares) =
          Except.map Prod.fst (openCapsule host ctx st capsuleID accessor shares)) ∧
    (openCapsule exampleHost { blockTime := 70000000000, blockHeight := 9 }
        exampleState 7 "bob"
        [{ x := 1, y := 12 }, { x := 1, y := 12 }, { x := 2, y := 19 }] =
      .error "failed to reconstruct key" ∧
     combineShares [{ x := 1, y := 12 }, { x := 2, y := 19 }] = .ok [5]) := by
  refine ⟨?_, ?_, ?_, ?_⟩
  · intro host ctx st capsuleID accessor s1 s2 cap h hl1 hl2 ht
    simp only [openCapsule, h]
    rw [openCapsuleData_take_threshold host ctx cap accessor s1 s2 hl1 hl2 ht]
  · intro host ctx st st2 capsuleID accessor shares cap sh' h h2
    simp only [openCapsule, h, h2]
    rw [openCapsuleData_ignores_shareHolders]
    cases openCapsuleData host ctx cap accessor shares <;> rfl
  · rfl
  · rfl

/-- C10 witness: part (i) applied at a concrete state: extending the
presented list past the first `threshold = 2` entries does not change the
outcome. -/
theorem C10_only_first_threshold_shares_witness :
    openCapsule exampleHost { blockTime := 70000000000, blockHeight := 9 }
        exampleState 7 "bob"
        [{ x := 1, y := 12 }, { x := 2, y := 19 }] =
      openCapsule exampleHost { blockTime := 70000000000, blockHeight := 9 }
        exampleState 7 "bob"
        [{ x := 1, y := 12 }, { x := 2, y := 19 }, { x := 3, y := 26 }] :=
  C10_only_first_threshold_shares.1 exampleHost
    { blockTime := 70000000000, blockHeight := 9 } exampleState 7 "bob"
    [{ x := 1, y := 12 }, { x := 2, y := 19 }]
    [{ x := 1, y := 12 }, { x := 2, y := 19 }, { x := 3, y := 26 }]
    { timeLockExample with id := 7 }
    (by decide) (by decide) (by decide) (by decide)

/-! ## Arithmetic bridge: the `Int` computations cast to `F_p` -/

/-- `powModAux` computes modular exponentiation. -/
theorem powModAux_correct :
    ∀ (fuel : Nat) (a e n : Nat), e < 2 ^ fuel →
      powModAux fuel a e n = a ^ e % n := by
  intro fuel
  induction fuel with
  | zero =>
      intro a e n he
      interval_cases e
      rfl
  | succ fuel ih =>
      intro a e n he
      by_cases h0 : e = 0
      · subst h0; rfl
      · have hdiv : e / 2 < 2 ^ fuel := by
          have : e < 2 ^ fuel * 2 := by
            simpa [pow_succ] using he
          omega
        have hr := ih ((a * a) % n) (e / 2) n hdiv
        have hsq : ((a * a) % n) ^ (e / 2) % n = (a * a) ^ (e / 2) % n :=
          (Nat.pow_mod (a * a) (e / 2) n).symm
        have hmul : (a * a) ^ (e / 2) = a ^ (2 * (e / 2)) := by
          rw [two_mul, pow_add, mul_pow]
        by_cases hodd : e % 2 = 1
        · have he2 : 2 * (e / 2) + 1 = e := by omega
          simp only [powModAux, h0, if_false, hodd, if_true, hr, hsq, hmul]
          rw [Nat.mul_mod, Nat.mod_mod_of_dvd _ (dvd_refl n), ← Nat.mul_mod]
          rw [← pow_succ, he2]
        · have he2 : 2 * (e / 2) = e := by omega
          simp only [powModAux, h0, if_false, hodd, if_false, hr, hsq, hmul, he2]

/-- `powMod` computes modular exponentiation for exponents below `2 ^ 600`. -/
theorem powMod_correct (a e n : Nat) (he : e < 2 ^ 600) :
    powMod a e n = a ^ e % n :=
  powModAux_correct 600 a e n he

/-- Lift a `powMod` identity into `ZMod n`. -/
theorem zmod_pow_eq_one_of_powMod (n a e : Nat) (h2 : 2 ≤ n) (he : e < 2 ^ 600)
    (h : powMod a e n = 1) : ((a : ZMod n)) ^ e = 1 := by
  have := powMod_correct a e n he
  rw [this] at h
  calc ((a : ZMod n)) ^ e = ((a ^ e : Nat) : ZMod n) := by push_cast; ring
    _ = ((a ^ e % n : Nat) : ZMod n) := (ZMod.natCast_mod _ _).symm
    _ = ((1 : Nat) : ZMod n) := by rw [h]
    _ = 1 := Nat.cast_one

/-- Lift a `powMod` disequality into `ZMod n`. -/
theorem zmod_pow_ne_one_of_powMod (n a e : Nat) (h2 : 2 ≤ n) (he : e < 2 ^ 600)
    (h : powMod a e n ≠ 1) : ((a : ZMod n)) ^ e ≠ 1 := by
  intro hcontra
  apply h
  rw [powMod_correct a e n he]
  have hc : ((a ^ e : Nat) : ZMod n) = ((1 : Nat) : ZMod n) := by
    push_cast
    rw [hcontra]
  have hmod := (ZMod.natCast_eq_natCast_iff' _ _ _).mp hc
  have h1n : 1 % n = 1 := Nat.mod_eq_of_lt (by omega)
  rw [hmod, h1n]

/-! ## Primality of the Shamir modulus: a Pratt/Lucas certificate chain -/

set_option maxRecDepth 40000 in
/-- Lucas primality certificate for 1521613 (a factor in the Pratt
chain of the Shamir modulus). -/
theorem cert_1521613 : Nat.Prime 1521613 := by
  have h2 : 2 ≤ 1521613 := by norm_num
  apply lucas_primality 1521613 ((2 : Nat) : ZMod 1521613)
  · exact zmod_pow_eq_one_of_powMod _ _ _ h2 (by norm_num) (by decide)
  · intro q hq hdvd
    have hfac : 1521613 - 1 = 2 * (2 * (3 * (3 * (3 * (73 * (193)))))) := by norm_num
    rw [hfac] at hdvd
    rcases (Nat.Prime.dvd_mul hq).mp hdvd with h | hdvd
    · rw [(Nat.prime_dvd_prime_iff_eq hq (by norm_num)).mp h]
      exact zmod_pow_ne_one_of_powMod _ _ _ h2 (by norm_num) (by decide)
    rcases (Nat.Prime.dvd_mul hq).mp hdvd with h | hdvd
    · rw [(Nat.prime_dvd_prime_iff_eq hq (by norm_num)).mp h]
      exact zmod_pow_ne_one_of_powMod _ _ _ h2 (by norm_num) (by decide)
    rcases (Nat.Prime.dvd_mul hq).mp hdvd with h | hdvd
    · rw [(Nat.prime_dvd_prime_iff_eq hq (by norm_num)).mp h]
      exact zmod_pow_ne_one_of_powMod _ _ _ h2 (by norm_num) (by decide)
    rcases (Nat.Prime.dvd_mul hq).mp hdvd with h | hdvd
    · rw [(Nat.prime_dvd_prime_iff_eq hq (by norm_num)).mp h]
      exact zmod_pow_ne_one_of_powMod _ _ _ h2 (by norm_num) (by decide)
    rcases (Nat.Prime.dvd_mul hq).mp hdvd with h | hdvd
    · rw [(Nat.prime_dvd_prime_iff_eq hq (by norm_num)).mp h]
      exact zmod_pow_ne_one_of_powMod _ _ _ h2 (by norm_num) (by decide)
    rcases (Nat.Prime.dvd_mul hq).mp hdvd with h | hdvd
    · rw [(Nat.prime_dvd_prime_iff_eq hq (by norm_num)).mp h]
      exact zmod_pow_ne_one_of_powMod _ _ _ h2 (by norm_num) (by decide)
    rw [(Nat.prime_dvd_prime_iff_eq hq (by norm_num)).mp hdvd]
    exact zmod_pow_ne_one_of_powMod _ _ _ h2 (by norm_num) (by decide)

set_option maxRecDepth 40000 in
/-- Lucas primality certificate for 4463413 (a factor in the Pratt
chain of the Shamir modulus). -/
theorem cert_4463413 : Nat.Prime 4463413 := by
  have h2 : 2 ≤ 4463413 := by norm_num
  apply lucas_primality 4463413 ((2 : Nat) : ZMod 4463413)
  · exact zmod_pow_eq_one_of_powMod _ _ _ h2 (by norm_num) (by decide)
  · intro q hq hdvd
    have hfac : 4463413 - 1 = 2 * (2 * (3 * (371951))) := by norm_num
    rw [hfac] at hdvd
    rcases (Nat.Prime.dvd_mul hq).mp hdvd with h | hdvd
    · rw [(Nat.prime_dvd_prime_iff_eq hq (by norm_num)).mp h]
      exact zmod_pow_ne_one_of_powMod _ _ _ h2 (by norm_num) (by decide)
    rcases (Nat.Prime.dvd_mul hq).mp hdvd with h | hdvd
    · rw [(Nat.prime_dvd_prime_iff_eq hq (by norm_num)).mp h]
      exact zmod_pow_ne_one_of_powMod _ _ _ h2 (by norm_num) (by decide)
    rcases (Nat.Prime.dvd_mul hq).mp hdvd with h | hdvd
    · rw [(Nat.prime_dvd_prime_iff_eq hq (by norm_num)).mp h]
      exact zmod_pow_ne_one_of_powMod _ _ _ h2 (by norm_num) (by decide)
    rw [(Nat.prime_dvd_prime_iff_eq hq (by norm_num)).mp hdvd]
    exact zmod_pow_ne_one_of_powMod _ _ _ h2 (by norm_num) (by decide)

set_option maxRecDepth 40000 in
/-- Lucas primality certificate for 10262543633 (a factor in the Pratt
chain of the Shamir modulus). -/
theorem cert_10262543633 : Nat.Prime 10262543633 := by
  have h2 : 2 ≤ 10262543633 := by norm_num
  apply lucas_primality 10262543633 ((3 : Nat) : ZMod 10262543633)
  · exact zmod_pow_eq_one_of_powMod _ _ _ h2 (by norm_num) (by decide)
  · intro q hq hdvd
    have hfac : 10262543633 - 1 = 2 * (2 * (2 * (2 * (11 * (83 * (702529)))))) := by norm_num
    rw [hfac] at hdvd
    rcases (Nat.Prime.dvd_mul hq).mp hdvd with h | hdvd
    · rw [(Nat.prime_dvd_prime_iff_eq hq (by norm_num)).mp h]
      exact zmod_pow_ne_one_of_powMod _ _ _ h2 (by norm_num) (by decide)
    rcases (Nat.Prime.dvd_mul hq).mp hdvd with h | hdvd
    · rw [(Nat.prime_dvd_prime_iff_eq hq (by norm_num)).mp h]
      exact zmod_pow_ne_one_of_powMod _ _ _ h2 (by norm_num) (by decide)
    rcases (Nat.Prime.dvd_mul hq).mp hdvd with h | hdvd
    · rw [(Nat.prime_dvd_prime_iff_eq hq (by norm_num)).mp h]
      exact zmod_pow_ne_one_of_powMod _ _ _ h2 (by norm_num) (by decide)
    rcases (Nat.Prime.dvd_mul hq).mp hdvd with h | hdvd
    · rw [(Nat.prime_dvd_prime_iff_eq hq (by norm_num)).mp h]
      exact zmod_pow_ne_one_of_powMod _ _ _ h2 (by norm_num) (by decide)
    rcases (Nat.Prime.dvd_mul hq).mp hdvd with h | hdvd
    · rw [(Nat.prime_dvd_prime_iff_eq hq (by norm_num)).mp h]
      exact zmod_pow_ne_one_of_powMod _ _ _ h2 (by norm_num) (by decide)
    rcases (Nat.Prime.dvd_mul hq).mp hdvd with h | hdvd
    · rw [(Nat.prime_dvd_prime_iff_eq hq (by norm_num)).mp h]
      exact zmod_pow_ne_one_of_powMod _ _ _ h2 (by norm_num) (by decide)
    rw [(Nat.prime_dvd_prime_iff_eq hq (by norm_num)).mp hdvd]
    exact zmod_pow_ne_one_of_powMod _ _ _ h2 (by norm_num) (by decide)

set_option maxRecDepth 40000 in
/-- Lucas primality certificate for 246301047193 (a factor in the Pratt
chain of the Shamir modulus). -/
theorem cert_246301047193 : Nat.Prime 246301047193 := by
  have h2 : 2 ≤ 246301047193 := by norm_num
  apply lucas_primality 246301047193 ((5 : Nat) : ZMod 246301047193)
  · exact zmod_pow_eq_one_of_powMod _ _ _ h2 (by norm_num) (by decide)
  · intro q hq hdvd
    have hfac : 246301047193 - 1 = 2 * (2 * (2 * (3 * (10262543633)))) := by norm_num
    rw [hfac] at hdvd
    rcases (Nat.Prime.dvd_mul hq).mp hdvd with h | hdvd
    · rw [(Nat.prime_dvd_prime_iff_eq hq (by norm_num)).mp h]
      exact zmod_pow_ne_one_of_powMod _ _ _ h2 (by norm_num) (by decide)
    rcases (Nat.Prime.dvd_mul hq).mp hdvd with h | hdvd
    · rw [(Nat.prime_dvd_prime_iff_eq hq (by norm_num)).mp h]
      exact zmod_pow_ne_one_of_powMod _ _ _ h2 (by norm_num) (by decide)
    rcases (Nat.Prime.dvd_mul hq).mp hdvd with h | hdvd
    · rw [(Nat.prime_dvd_prime_iff_eq hq (by norm_num)).mp h]
      exact zmod_pow_ne_one_of_powMod _ _ _ h2 (by norm_num) (by decide)
    rcases (Nat.Prime.dvd_mul hq).mp hdvd with h | hdvd
    · rw [(Nat.prime_dvd_prime_iff_eq hq (by norm_num)).mp h]
      exact zmod_pow_ne_one_of_powMod _ _ _ h2 (by norm_num) (by decide)
    rw [(Nat.prime_dvd_prime_iff_eq hq cert_10262543633).mp hdvd]
    exact zmod_pow_ne_one_of_powMod _ _ _ h2 (by norm_num) (by decide)

set_option maxRecDepth 40000 in
/-- Lucas primality certificate for 1219974856409 (a factor in the Pratt
chain of the Shamir modulus). -/
theorem cert_1219974856409 : Nat.Prime 1219974856409 := by
  have h2 : 2 ≤ 1219974856409 := by norm_num
  apply lucas_primality 1219974856409 ((6 : Nat) : ZMod 1219974856409)
  · exact zmod_pow_eq_one_of_powMod _ _ _ h2 (by norm_num) (by decide)
  · intro q hq hdvd
    have hfac : 1219974856409 - 1 = 2 * (2 * (2 * (7 * (11 * (3761 * (526583)))))) := by norm_num
    rw [hfac] at hdvd
    rcases (Nat.Prime.dvd_mul hq).mp hdvd with h | hdvd
    · rw [(Nat.prime_dvd_prime_iff_eq hq (by norm_num)).mp h]
      exact zmod_pow_ne_one_of_powMod _ _ _ h2 (by norm_num) (by decide)
    rcases (Nat.Prime.dvd_mul hq).mp hdvd with h | hdvd
    · rw [(Nat.prime_dvd_prime_iff_eq hq (by norm_num)).mp h]
      exact zmod_pow_ne_one_of_powMod _ _ _ h2 (by norm_num) (by decide)
    rcases (Nat.Prime.dvd_mul hq).mp hdvd with h | hdvd
    · rw [(Nat.prime_dvd_prime_iff_eq hq (by norm_num)).mp h]
      exact zmod_pow_ne_one_of_powMod _ _ _ h2 (by norm_num) (by decide)
    rcases (Nat.Prime.dvd_mul hq).mp hdvd with h | hdvd
    · rw [(Nat.prime_dvd_prime_iff_eq hq (by norm_num)).mp h]
      exact zmod_pow_ne_one_of_powMod _ _ _ h2 (by norm_num) (by decide)
    rcases (Nat.Prime.dvd_mul hq).mp hdvd with h | hdvd
    · rw [(Nat.prime_dvd_prime_iff_eq hq (by norm_num)).mp h]
      exact zmod_pow_ne_one_of_powMod _ _ _ h2 (by norm_num) (by decide)
    rcases (Nat.Prime.dvd_mul hq).mp hdvd with h | hdvd
    · rw [(Nat.prime_dvd_prime_iff_eq hq (by norm_num)).mp h]
      exact zmod_pow_ne_one_of_powMod _ _ _ h2 (by norm_num) (by decide)
    rw [(Nat.prime_dvd_prime_iff_eq hq (by norm_num)).mp hdvd]
    exact zmod_pow_ne_one_of_powMod _ _ _ h2 (by norm_num) (by decide)

set_option maxRecDepth 40000 in
/-- Lucas primality certificate for 68964293214041 (a factor in the Pratt
chain of the Shamir modulus). -/
theorem cert_68964293214041 : Nat.Prime 68964293214041 := by
  have h2 : 2 ≤ 68964293214041 := by norm_num
  apply lucas_primality 68964293214041 ((12 : Nat) : ZMod 68964293214041)
  · exact zmod_pow_eq_one_of_powMod _ _ _ h2 (by norm_num) (by decide)
  · intro q hq hdvd
    have hfac : 68964293214041 - 1 = 2 * (2 * (2 * (5 * (7 * (246301047193))))) := by norm_num
    rw [hfac] at hdvd
    rcases (Nat.Prime.dvd_mul hq).mp hdvd with h | hdvd
    · rw [(Nat.prime_dvd_prime_iff_eq hq (by norm_num)).mp h]
      exact zmod_pow_ne_one_of_powMod _ _ _ h2 (by norm_num) (by decide)
    rcases (Nat.Prime.dvd_mul hq).mp hdvd with h | hdvd
    · rw [(Nat.prime_dvd_prime_iff_eq hq (by norm_num)).mp h]
      exact zmod_pow_ne_one_of_powMod _ _ _ h2 (by norm_num) (by decide)
    rcases (Nat.Prime.dvd_mul hq).mp hdvd with h | hdvd
    · rw [(Nat.prime_dvd_prime_iff_eq hq (by norm_num)).mp h]
      exact zmod_pow_ne_one_of_powMod _ _ _ h2 (by norm_num) (by decide)
    rcases (Nat.Prime.dvd_mul hq).mp hdvd with h | hdvd
    · rw [(Nat.prime_dvd_prime_iff_eq hq (by norm_num)).mp h]
      exact zmod_pow_ne_one_of_powMod _ _ _ h2 (by norm_num) (by decide)
    rcases (Nat.Prime.dvd_mul hq).mp hdvd with h | hdvd
    · rw [(Nat.prime_dvd_prime_iff_eq hq (by norm_num)).mp h]
      exact zmod_pow_ne_one_of_powMod _ _ _ h2 (by norm_num) (by decide)
    rw [(Nat.prime_dvd_prime_iff_eq hq cert_246301047193).mp hdvd]
    exact zmod_pow_ne_one_of_powMod _ _ _ h2 (by norm_num) (by decide)

set_option maxRecDepth 40000 in
/-- Lucas primality certificate for 23236691026952546459 (a factor in the Pratt
chain of the Shamir modulus). -/
theorem cert_23236691026952546459 : Nat.Prime 23236691026952546459 := by
  have h2 : 2 ≤ 23236691026952546459 := by norm_num
  apply lucas_primality 23236691026952546459 ((2 : Nat) : ZMod 23236691026952546459)
  · exact zmod_pow_eq_one_of_powMod _ _ _ h2 (by norm_num) (by decide)
  · intro q hq hdvd
    have hfac : 23236691026952546459 - 1 = 2 * (7 * (41 * (587 * (68964293214041)))) := by norm_num
    rw [hfac] at hdvd
    rcases (Nat.Prime.dvd_mul hq).mp hdvd with h | hdvd
    · rw [(Nat.prime_dvd_prime_iff_eq hq (by norm_num)).mp h]
      exact zmod_pow_ne_one_of_powMod _ _ _ h2 (by norm_num) (by decide)
    rcases (Nat.Prime.dvd_mul hq).mp hdvd with h | hdvd
    · rw [(Nat.prime_dvd_prime_iff_eq hq (by norm_num)).mp h]
      exact zmod_pow_ne_one_of_powMod _ _ _ h2 (by norm_num) (by decide)
    rcases (Nat.Prime.dvd_mul hq).mp hdvd with h | hdvd
    · rw [(Nat.prime_dvd_prime_iff_eq hq (by norm_num)).mp h]
      exact zmod_pow_ne_one_of_powMod _ _ _ h2 (by norm_num) (by decide)
    rcases (Nat.Prime.dvd_mul hq).mp hdvd with h | hdvd
    · rw [(Nat.prime_dvd_prime_iff_eq hq (by norm_num)).mp h]
      exact zmod_pow_ne_one_of_powMod _ _ _ h2 (by norm_num) (by decide)
    rw [(Nat.prime_dvd_prime_iff_eq hq cert_68964293214041).mp hdvd]
    exact zmod_pow_ne_one_of_powMod _ _ _ h2 (by norm_num) (by decide)

set_option maxRecDepth 40000 in
/-- Lucas primality certificate for 14220365526706201077871 (a factor in the Pratt
chain of the Shamir modulus). -/
theorem cert_14220365526706201077871 : Nat.Prime 14220365526706201077871 := by
  have h2 : 2 ≤ 14220365526706201077871 := by norm_num
  apply lucas_primality 14220365526706201077871 ((6 : Nat) : ZMod 14220365526706201077871)
  · exact zmod_pow_eq_one_of_powMod _ _ _ h2 (by norm_num) (by decide)
  · intro q hq hdvd
    have hfac : 14220365526706201077871 - 1 = 2 * (3 * (3 * (5 * (23 * (2221 * (36151 * (87881 * (973591)))))))) := by norm_num
    rw [hfac] at hdvd
    rcases (Nat.Prime.dvd_mul hq).mp hdvd with h | hdvd
    · rw [(Nat.prime_dvd_prime_iff_eq hq (by norm_num)).mp h]
      exact zmod_pow_ne_one_of_powMod _ _ _ h2 (by norm_num) (by decide)
    rcases (Nat.Prime.dvd_mul hq).mp hdvd with h | hdvd
    · rw [(Nat.prime_dvd_prime_iff_eq hq (by norm_num)).mp h]
      exact zmod_pow_ne_one_of_powMod _ _ _ h2 (by norm_num) (by decide)
    rcases (Nat.Prime.dvd_mul hq).mp hdvd with h | hdvd
    · rw [(Nat.prime_dvd_prime_iff_eq hq (by norm_num)).mp h]
      exact zmod_pow_ne_one_of_powMod _ _ _ h2 (by norm_num) (by decide)
    rcases (Nat.Prime.dvd_mul hq).mp hdvd with h | hdvd
    · rw [(Nat.prime_dvd_prime_iff_eq hq (by norm_num)).mp h]
      exact zmod_pow_ne_one_of_powMod _ _ _ h2 (by norm_num) (by decide)
    rcases (Nat.Prime.dvd_mul hq).mp hdvd with h | hdvd
    · rw [(Nat.prime_dvd_prime_iff_eq hq (by norm_num)).mp h]
      exact zmod_pow_ne_one_of_powMod _ _ _ h2 (by norm_num) (by decide)
    rcases (Nat.Prime.dvd_mul hq).mp hdvd with h | hdvd
    · rw [(Nat.prime_dvd_prime_iff_eq hq (by norm_num)).mp h]
      exact zmod_pow_ne_one_of_powMod _ _ _ h2 (by norm_num) (by decide)
    rcases (Nat.Prime.dvd_mul hq).mp hdvd with h | hdvd
    · rw [(Nat.prime_dvd_prime_iff_eq hq (by norm_num)).mp h]
      exact zmod_pow_ne_one_of_powMod _ _ _ h2 (by norm_num) (by decide)
    rcases (Nat.Prime.dvd_mul hq).mp hdvd with h | hdvd
    · rw [(Nat.prime_dvd_prime_iff_eq hq (by norm_num)).mp h]
      exact zmod_pow_ne_one_of_powMod _ _ _ h2 (by norm_num) (by decide)
    rw [(Nat.prime_dvd_prime_iff_eq hq (by norm_num)).mp hdvd]
    exact zmod_pow_ne_one_of_powMod _ _ _ h2 (by norm_num) (by decide)

set_option maxRecDepth 40000 in
/-- Lucas primality certificate for 440208639276132997491800604758226661590679912188273141493 (a factor in the Pratt
chain of the Shamir modulus). -/
theorem cert_440208639276132997491800604758226661590679912188273141493 : Nat.Prime 440208639276132997491800604758226661590679912188273141493 := by
  have h2 : 2 ≤ 440208639276132997491800604758226661590679912188273141493 := by norm_num
  apply lucas_primality 440208639276132997491800604758226661590679912188273141493 ((2 : Nat) : ZMod 440208639276132997491800604758226661590679912188273141493)
  · exact zmod_pow_eq_one_of_powMod _ _ _ h2 (by norm_num) (by decide)
  · intro q hq hdvd
    have hfac : 440208639276132997491800604758226661590679912188273141493 - 1 = 2 * (2 * (3 * (7 * (13 * (1219974856409 * (23236691026952546459 * (14220365526706201077871))))))) := by norm_num
    rw [hfac] at hdvd
    rcases (Nat.Prime.dvd_mul hq).mp hdvd with h | hdvd
    · rw [(Nat.prime_dvd_prime_iff_eq hq (by norm_num)).mp h]
      exact zmod_pow_ne_one_of_powMod _ _ _ h2 (by norm_num) (by decide)
    rcases (Nat.Prime.dvd_mul hq).mp hdvd with h | hdvd
    · rw [(Nat.prime_dvd_prime_iff_eq hq (by norm_num)).mp h]
      exact zmod_pow_ne_one_of_powMod _ _ _ h2 (by norm_num) (by decide)
    rcases (Nat.Prime.dvd_mul hq).mp hdvd with h | hdvd
    · rw [(Nat.prime_dvd_prime_iff_eq hq (by norm_num)).mp h]
      exact zmod_pow_ne_one_of_powMod _ _ _ h2 (by norm_num) (by decide)
    rcases (Nat.Prime.dvd_mul hq).mp hdvd with h | hdvd
    · rw [(Nat.prime_dvd_prime_iff_eq hq (by norm_num)).mp h]
      exact zmod_pow_ne_one_of_powMod _ _ _ h2 (by norm_num) (by decide)
    rcases (Nat.Prime.dvd_mul hq).mp hdvd with h | hdvd
    · rw [(Nat.prime_dvd_prime_iff_eq hq (by norm_num)).mp h]
      exact zmod_pow_ne_one_of_powMod _ _ _ h2 (by norm_num) (by decide)
    rcases (Nat.Prime.dvd_mul hq).mp hdvd with h | hdvd
    · rw [(Nat.prime_dvd_prime_iff_eq hq cert_1219974856409).mp h]
      exact zmod_pow_ne_one_of_powMod _ _ _ h2 (by norm_num) (by decide)
    rcases (Nat.Prime.dvd_mul hq).mp hdvd with h | hdvd
    · rw [(Nat.prime_dvd_prime_iff_eq hq cert_23236691026952546459).mp h]
      exact zmod_pow_ne_one_of_powMod _ _ _ h2 (by norm_num) (by decide)
    rw [(Nat.prime_dvd_prime_iff_eq hq cert_14220365526706201077871).mp hdvd]
    exact zmod_pow_ne_one_of_powMod _ _ _ h2 (by norm_num) (by decide)

set_option maxRecDepth 40000 in
/-- The Shamir modulus 2^256 - 189 is prime (Lucas certificate with
witness 2). -/
theorem shamirPrime_prime : Nat.Prime shamirPrime := by
  have h2 : 2 ≤ shamirPrime := by norm_num [shamirPrime]
  rw [show shamirPrime = 115792089237316195423570985008687907853269984665640564039457584007913129639747 from rfl]
  apply lucas_primality _ ((2 : Nat) : ZMod 115792089237316195423570985008687907853269984665640564039457584007913129639747)
  · exact zmod_pow_eq_one_of_powMod _ _ _ (by norm_num) (by norm_num) (by decide)
  · intro q hq hdvd
    have hfac : 115792089237316195423570985008687907853269984665640564039457584007913129639747 - 1 = 2 * (3 * (29 * (222587 * (1521613 * (4463413 * (440208639276132997491800604758226661590679912188273141493)))))) := by norm_num
    rw [hfac] at hdvd
    rcases (Nat.Prime.dvd_mul hq).mp hdvd with h | hdvd
    · rw [(Nat.prime_dvd_prime_iff_eq hq (by norm_num)).mp h]
      exact zmod_pow_ne_one_of_powMod _ _ _ (by norm_num) (by norm_num) (by decide)
    rcases (Nat.Prime.dvd_mul hq).mp hdvd with h | hdvd
    · rw [(Nat.prime_dvd_prime_iff_eq hq (by norm_num)).mp h]
      exact zmod_pow_ne_one_of_powMod _ _ _ (by norm_num) (by norm_num) (by decide)
    rcases (Nat.Prime.dvd_mul hq).mp hdvd with h | hdvd
    · rw [(Nat.prime_dvd_prime_iff_eq hq (by norm_num)).mp h]
      exact zmod_pow_ne_one_of_powMod _ _ _ (by norm_num) (by norm_num) (by decide)
    rcases (Nat.Prime.dvd_mul hq).mp hdvd with h | hdvd
    · rw [(Nat.prime_dvd_prime_iff_eq hq (by norm_num)).mp h]
      exact zmod_pow_ne_one_of_powMod _ _ _ (by norm_num) (by norm_num) (by decide)
    rcases (Nat.Prime.dvd_mul hq).mp hdvd with h | hdvd
    · rw [(Nat.prime_dvd_prime_iff_eq hq cert_1521613).mp h]
      exact zmod_pow_ne_one_of_powMod _ _ _ (by norm_num) (by norm_num) (by decide)
    rcases (Nat.Prime.dvd_mul hq).mp hdvd with h | hdvd
    · rw [(Nat.prime_dvd_prime_iff_eq hq cert_4463413).mp h]
      exact zmod_pow_ne_one_of_powMod _ _ _ (by norm_num) (by norm_num) (by decide)
    rw [(Nat.prime_dvd_prime_iff_eq hq cert_440208639276132997491800604758226661590679912188273141493).mp hdvd]
    exact zmod_pow_ne_one_of_powMod _ _ _ (by norm_num) (by norm_num) (by decide)

/-! ## Casting the Shamir `Int` computations into `F_p` -/

/-- The modulus is positive. -/
theorem PInt_pos : 0 < PInt := by norm_num [PInt, shamirPrime]

/-- Reduction mod the Shamir modulus is invisible in `F_p`. -/
theorem intCast_emod_P (a : Int) : ((a % PInt : Int) : Fp) = (a : Fp) := by
  have h := ZMod.intCast_mod a shamirPrime
  exact h

/-- An integer reduced mod the modulus lies in `[0, PInt)`. -/
theorem emod_P_range (a : Int) : 0 ≤ a % PInt ∧ a % PInt < PInt :=
  ⟨Int.emod_nonneg a (by exact ne_of_gt PInt_pos), Int.emod_lt_of_pos a PInt_pos⟩

/-- Two integers in `[0, PInt)` with the same image in `F_p` are equal. -/
theorem int_eq_of_cast_eq {a b : Int} (ha0 : 0 ≤ a) (ha : a < PInt)
    (hb0 : 0 ≤ b) (hb : b < PInt) (h : (a : Fp) = (b : Fp)) : a = b := by
  have hz : ((a - b : Int) : Fp) = 0 := by push_cast; rw [h]; ring
  have hdvd : (shamirPrime : Int) ∣ (a - b) :=
    (ZMod.intCast_zmod_eq_zero_iff_dvd _ _).mp hz
  have habs : |a - b| < (shamirPrime : Int) := by
    have : PInt = (shamirPrime : Int) := rfl
    rw [abs_lt]
    omega
  have := Int.eq_zero_of_abs_lt_dvd hdvd habs
  omega

/-- A nonzero integer of absolute value below the modulus is nonzero in
`F_p`. -/
theorem cast_ne_zero_of_abs_lt {a : Int} (h0 : a ≠ 0) (ha : |a| < PInt) :
    (a : Fp) ≠ 0 := by
  intro hz
  have hdvd : (shamirPrime : Int) ∣ a :=
    (ZMod.intCast_zmod_eq_zero_iff_dvd _ _).mp hz
  have : PInt = (shamirPrime : Int) := rfl
  exact h0 (Int.eq_zero_of_abs_lt_dvd hdvd (by rw [← this]; exact ha))

/-- One step of `evalZ`. -/
theorem evalZ_cons (c : Fp) (l : List Fp) (x : Fp) :
    evalZ (c :: l) x = c + x * evalZ l x := rfl

/-- The polynomial-evaluation loop of `evaluatePolynomial`, cast to `F_p`. -/
theorem evalPolyAux_cast (x : Int) (cs : List Int) :
    ∀ (r xp : Int),
      ((evalPolyAux x cs r xp : Int) : Fp) =
        (r : Fp) + (xp : Fp) * evalZ (cs.map (Int.cast : Int → Fp)) (x : Fp) := by
  induction cs with
  | nil =>
      intro r xp
      simp [evalPolyAux, evalZ]
  | cons c t ih =>
      intro r xp
      rw [evalPolyAux, ih, intCast_emod_P, intCast_emod_P]
      rw [List.map_cons, evalZ_cons]
      push_cast
      ring

/-- `evaluatePolynomial`, cast to `F_p`, is list evaluation over `F_p`. -/
theorem evaluatePolynomial_cast (coefficients : List Int) (x : Int) :
    ((evaluatePolynomial coefficients x : Int) : Fp) =
      evalZ (coefficients.map (Int.cast : Int → Fp)) (x : Fp) := by
  rw [evaluatePolynomial, evalPolyAux_cast]
  push_cast
  ring

/-- `polyOfList` evaluates like `evalZ`. -/
theorem polyOfList_eval (l : List Fp) (x : Fp) :
    (polyOfList l).eval x = evalZ l x := by
  induction l with
  | nil => simp [polyOfList, evalZ]
  | cons c t ih =>
      simp only [polyOfList, evalZ, List.foldr_cons] at ih ⊢
      simp [Polynomial.eval_add, Polynomial.eval_mul, ih]

/-- The degree of `polyOfList l` is below the length of `l`. -/
theorem polyOfList_degree_lt (l : List Fp) :
    (polyOfList l).degree < (l.length : WithBot Nat) := by
  induction l with
  | nil =>
      simp only [polyOfList, List.foldr_nil, Polynomial.degree_zero, List.length_nil]
      exact WithBot.bot_lt_coe 0
  | cons c t ih =>
      simp only [polyOfList, List.foldr_cons, List.length_cons]
      refine lt_of_le_of_lt (Polynomial.degree_add_le _ _) (max_lt ?_ ?_)
      · refine lt_of_le_of_lt Polynomial.degree_C_le ?_
        exact_mod_cast Nat.succ_pos t.length
      · have h2 : (Polynomial.X * polyOfList t).degree ≤ 1 + (polyOfList t).degree := by
          have := Polynomial.degree_mul_le (Polynomial.X (R := Fp)) (polyOfList t)
          refine this.trans (add_le_add_right Polynomial.degree_X_le _)
        refine lt_of_le_of_lt h2 ?_
        rcases hd : (polyOfList t).degree with _ | k
        · show (1 : WithBot Nat) + ⊥ < (t.length : WithBot Nat) + 1
          rw [WithBot.add_bot]
          refine bot_lt_iff_ne_bot.mpr ?_
          simp [WithBot.add_eq_bot]
        · rw [hd] at ih
          have hk : k < t.length :=
            WithBot.coe_lt_coe.mp ih
          show (1 : WithBot Nat) + (k : Nat) < (t.length : WithBot Nat) + 1
          have h1k : (1 : WithBot Nat) + (k : Nat) = ((1 + k : Nat) : WithBot Nat) := by
            exact_mod_cast rfl
          have h2k : (t.length : WithBot Nat) + 1 = ((t.length + 1 : Nat) : WithBot Nat) := by
            exact_mod_cast rfl
          rw [h1k, h2k]
          exact_mod_cast by omega

/-! ## Correctness of `modInverse` -/

/-- `Int.gcd` satisfies the Euclidean recurrence on non-negative inputs. -/
theorem int_gcd_step (a b : Int) (ha : 0 ≤ a) (hb : 0 < b) :
    Int.gcd a b = Int.gcd b (a % b) := by
  obtain ⟨m, rfl⟩ := Int.eq_ofNat_of_zero_le ha
  obtain ⟨n, rfl⟩ := Int.eq_ofNat_of_zero_le hb.le
  rw [← Int.natCast_mod]
  rw [Int.gcd_natCast_natCast, Int.gcd_natCast_natCast]
  have hn : 0 < n := by exact_mod_cast hb
  conv_lhs => rw [Nat.gcd_comm]
  rw [Nat.gcd_rec n m]
  exact (Nat.gcd_comm _ _).symm ▸ rfl

/-- The fuel-driven extended Euclid is correct: on non-negative inputs with
enough fuel it returns the gcd together with Bézout coefficients. -/
theorem egcdAux_spec :
    ∀ (fuel : Nat) (a b : Int), 0 ≤ a → 0 ≤ b → b < (fuel : Int) →
      (egcdAux fuel a b).1 = (Int.gcd a b : Int) ∧
      a * (egcdAux fuel a b).2.1 + b * (egcdAux fuel a b).2.2 =
        (egcdAux fuel a b).1 := by
  intro fuel
  induction fuel with
  | zero =>
      intro a b _ hb0 hbf
      simp at hbf
      omega
  | succ fuel ih =>
      intro a b ha0 hb0 hbf
      by_cases hb : b = 0
      · subst hb
        constructor
        · show a = (Int.gcd a 0 : Int)
          rw [Int.gcd_zero_right, Int.natAbs_of_nonneg ha0]
        · show a * 1 + 0 * 0 = a
          ring
      · have hbpos : 0 < b := lt_of_le_of_ne hb0 (Ne.symm hb)
        have hr0 : 0 ≤ a % b := Int.emod_nonneg a hb
        have hrb : a % b < b := Int.emod_lt_of_pos a hbpos
        have hrf : a % b < (fuel : Int) := by
          have : b ≤ (fuel : Int) := by exact_mod_cast by omega
          omega
        obtain ⟨hg, hbez⟩ := ih b (a % b) hb0 hr0 hrf
        have hstep : egcdAux (fuel + 1) a b =
            ((egcdAux fuel b (a % b)).1,
             (egcdAux fuel b (a % b)).2.2,
             (egcdAux fuel b (a % b)).2.1 - a / b * (egcdAux fuel b (a % b)).2.2) := by
          rw [egcdAux]
          simp only [hb, if_false]
        rw [hstep]
        constructor
        · exact hg.trans (by rw [← int_gcd_step a b ha0 hbpos])
        · have hmod : a % b = a - b * (a / b) := Int.emod_def a b
          calc a * (egcdAux fuel b (a % b)).2.2 +
                b * ((egcdAux fuel b (a % b)).2.1 - a / b * (egcdAux fuel b (a % b)).2.2)
              = b * (egcdAux fuel b (a % b)).2.1 +
                (a - b * (a / b)) * (egcdAux fuel b (a % b)).2.2 := by ring
            _ = b * (egcdAux fuel b (a % b)).2.1 +
                (a % b) * (egcdAux fuel b (a % b)).2.2 := by rw [← hmod]
            _ = (egcdAux fuel b (a % b)).1 := hbez

/-- On an input in `[0, PInt)` that is nonzero in `F_p`, `modInverse`
returns an inverse: some `v` with `(v : F_p) = (g : F_p)⁻¹`. -/
theorem modInverse_spec (g : Int) (h0 : 0 ≤ g) (hlt : g < PInt)
    (hg : (g : Fp) ≠ 0) :
    ∃ v, modInverse g PInt = some v ∧ ((v : Fp) = (g : Fp)⁻¹) := by
  have hP0 : (0 : Int) ≤ PInt := PInt_pos.le
  have hfuel : PInt < ((PInt.toNat + 1 : Nat) : Int) := by
    have : (PInt.toNat : Int) = PInt := Int.toNat_of_nonneg hP0
    push_cast
    omega
  obtain ⟨hgcd, hbez⟩ := egcdAux_spec (PInt.toNat + 1) g PInt h0 hP0 hfuel
  have hgne : g ≠ 0 := by
    intro hz
    subst hz
    simp at hg
  have hcop : Int.gcd g PInt = 1 := by
    have hprime := shamirPrime_prime
    have hdvd : Int.gcd g PInt ∣ shamirPrime := by
      have : (Int.gcd g PInt : Int) ∣ PInt := Int.gcd_dvd_right
      have hnat : Int.gcd g PInt ∣ PInt.natAbs := Int.natAbs_dvd_natAbs.mpr
        (by exact_mod_cast this)
      simpa [PInt, Int.natAbs_ofNat] using hnat
    rcases (Nat.Prime.eq_one_or_self_of_dvd hprime _ hdvd) with h1 | hP
    · exact h1
    · exfalso
      have hdg : (Int.gcd g PInt : Int) ∣ g := Int.gcd_dvd_left
      rw [hP] at hdg
      have : (shamirPrime : Int) ∣ g := by exact_mod_cast hdg
      have habs : |g| < (shamirPrime : Int) := by
        rw [abs_of_nonneg h0]
        exact hlt
      exact hgne (Int.eq_zero_of_abs_lt_dvd this habs)
  have hone : (egcdAux (PInt.toNat + 1) g PInt).1 = 1 := by
    rw [hgcd, hcop]
    rfl
  refine ⟨(egcdAux (PInt.toNat + 1) g PInt).2.1 % PInt, ?_, ?_⟩
  · rw [modInverse]
    simp only [hone, if_pos]
  · rw [hone] at hbez
    have hcast : ((g * (egcdAux (PInt.toNat + 1) g PInt).2.1 +
        PInt * (egcdAux (PInt.toNat + 1) g PInt).2.2 : Int) : Fp) = ((1 : Int) : Fp) := by
      rw [hbez]
    have hPzero : ((PInt : Int) : Fp) = 0 := by
      have : ((shamirPrime : Int) : Fp) = ((shamirPrime : Nat) : Fp) := by push_cast; rfl
      show ((PInt : Int) : Fp) = 0
      rw [show (PInt : Int) = ((shamirPrime : Nat) : Int) from rfl]
      push_cast
      exact ZMod.natCast_self shamirPrime
    push_cast at hcast
    rw [hPzero] at hcast
    have hmul : (g : Fp) * ((egcdAux (PInt.toNat + 1) g PInt).2.1 : Fp) = 1 := by
      calc (g : Fp) * ((egcdAux (PInt.toNat + 1) g PInt).2.1 : Fp)
          = (g : Fp) * ((egcdAux (PInt.toNat + 1) g PInt).2.1 : Fp) +
            0 * ((egcdAux (PInt.toNat + 1) g PInt).2.2 : Fp) := by ring
        _ = 1 := hcast
    rw [intCast_emod_P]
    haveI : Fact (Nat.Prime shamirPrime) := ⟨shamirPrime_prime⟩
    exact eq_inv_of_mul_eq_one_left (by rw [mul_comm]; exact hmul)

/-! ## The Lagrange loops of `CombineShares`, cast to `F_p` -/

/-- Invariant of the inner numerator/denominator loop: starting from any
accumulator in range, the result stays in `[0, PInt)` and its image in
`F_p` is the accumulator times the product over the positions `j ≠ i`. -/
theorem lagrangeStep_go (i : Nat) (xi : Int) :
    ∀ (l : List (Nat × Share)) (a b : Int),
      0 ≤ a → a < PInt → 0 ≤ b → b < PInt →
      (0 ≤ (l.foldl (fun nd jt =>
          if jt.1 ≠ i then
            ((nd.1 * (-jt.2.x)) % PInt, (nd.2 * (xi - jt.2.x)) % PInt)
          else nd) (a, b)).1 ∧
       (l.foldl (fun nd jt =>
          if jt.1 ≠ i then
            ((nd.1 * (-jt.2.x)) % PInt, (nd.2 * (xi - jt.2.x)) % PInt)
          else nd) (a, b)).1 < PInt ∧
       0 ≤ (l.foldl (fun nd jt =>
          if jt.1 ≠ i then
            ((nd.1 * (-jt.2.x)) % PInt, (nd.2 * (xi - jt.2.x)) % PInt)
          else nd) (a, b)).2 ∧
       (l.foldl (fun nd jt =>
          if jt.1 ≠ i then
            ((nd.1 * (-jt.2.x)) % PInt, (nd.2 * (xi - jt.2.x)) % PInt)
          else nd) (a, b)).2 < PInt) ∧
      (((l.foldl (fun nd jt =>
          if jt.1 ≠ i then
            ((nd.1 * (-jt.2.x)) % PInt, (nd.2 * (xi - jt.2.x)) % PInt)
          else nd) (a, b)).1 : Fp) =
        (a : Fp) *
          ((l.filter (fun jt => jt.1 ≠ i)).map (fun jt => -(jt.2.x : Fp))).prod) ∧
      (((l.foldl (fun nd jt =>
          if jt.1 ≠ i then
            ((nd.1 * (-jt.2.x)) % PInt, (nd.2 * (xi - jt.2.x)) % PInt)
          else nd) (a, b)).2 : Fp) =
        (b : Fp) *
          ((l.filter (fun jt => jt.1 ≠ i)).map
            (fun jt => (xi : Fp) - (jt.2.x : Fp))).prod) := by
  intro l
  induction l with
  | nil =>
      intro a b ha0 ha hb0 hb
      refine ⟨⟨ha0, ha, hb0, hb⟩, ?_, ?_⟩ <;> simp
  | cons jt t ih =>
      intro a b ha0 ha hb0 hb
      by_cases h : jt.1 = i
      · have hfilter : (jt :: t).filter (fun kt => kt.1 ≠ i) =
            t.filter (fun kt => kt.1 ≠ i) := by
          simp [List.filter, h]
        have hfold : ∀ (s : Int × Int),
            ((jt :: t).foldl (fun nd kt =>
              if kt.1 ≠ i then
                ((nd.1 * (-kt.2.x)) % PInt, (nd.2 * (xi - kt.2.x)) % PInt)
              else nd) s) =
            (t.foldl (fun nd kt =>
              if kt.1 ≠ i then
                ((nd.1 * (-kt.2.x)) % PInt, (nd.2 * (xi - kt.2.x)) % PInt)
              else nd) s) := by
          intro s
          simp [List.foldl_cons, h]
        rw [hfold, hfilter]
        exact ih a b ha0 ha hb0 hb
      · have ha' := emod_P_range (a * (-jt.2.x))
        have hb' := emod_P_range (b * (xi - jt.2.x))
        have hfold : ((jt :: t).foldl (fun nd kt =>
              if kt.1 ≠ i then
                ((nd.1 * (-kt.2.x)) % PInt, (nd.2 * (xi - kt.2.x)) % PInt)
              else nd) (a, b)) =
            (t.foldl (fun nd kt =>
              if kt.1 ≠ i then
                ((nd.1 * (-kt.2.x)) % PInt, (nd.2 * (xi - kt.2.x)) % PInt)
              else nd) ((a * (-jt.2.x)) % PInt, (b * (xi - jt.2.x)) % PInt)) := by
          simp [List.foldl_cons, h]
        have hfilter : (jt :: t).filter (fun kt => kt.1 ≠ i) =
            jt :: t.filter (fun kt => kt.1 ≠ i) := by
          simp [List.filter, h]
        rw [hfold, hfilter]
        obtain ⟨hrange, hnum, hden⟩ :=
          ih ((a * (-jt.2.x)) % PInt) ((b * (xi - jt.2.x)) % PInt)
            ha'.1 ha'.2 hb'.1 hb'.2
        refine ⟨hrange, ?_, ?_⟩
        · rw [hnum, intCast_emod_P, List.map_cons, List.prod_cons]
          push_cast
          ring
        · rw [hden, intCast_emod_P, List.map_cons, List.prod_cons]
          push_cast
          ring

/-- Specification of `lagrangeStep`: ranges and `F_p` values of the
numerator and denominator. -/
theorem lagrangeStep_spec (all : List (Nat × Share)) (i : Nat) (xi : Int) :
    (0 ≤ (lagrangeStep all i xi).1 ∧ (lagrangeStep all i xi).1 < PInt ∧
     0 ≤ (lagrangeStep all i xi).2 ∧ (lagrangeStep all i xi).2 < PInt) ∧
    (((lagrangeStep all i xi).1 : Fp) =
      ((all.filter (fun jt => jt.1 ≠ i)).map (fun jt => -(jt.2.x : Fp))).prod) ∧
    (((lagrangeStep all i xi).2 : Fp) =
      ((all.filter (fun jt => jt.1 ≠ i)).map
        (fun jt => (xi : Fp) - (jt.2.x : Fp))).prod) := by
  unfold lagrangeStep
  have h := lagrangeStep_go i xi all 1 1 (by norm_num)
    (by norm_num [PInt, shamirPrime]) (by norm_num) (by norm_num [PInt, shamirPrime])
  obtain ⟨hrange, hnum, hden⟩ := h
  refine ⟨hrange, ?_, ?_⟩
  · rw [hnum]
    push_cast
    ring
  · rw [hden]
    push_cast
    ring

/-- Invariant of the outer loop of `CombineShares`: if every denominator is
invertible in `F_p`, the loop succeeds and its result accumulates the
Lagrange terms of all remaining shares. -/
theorem combineLoop_spec (all : List (Nat × Share)) :
    ∀ (rest : List (Nat × Share)) (acc : Int),
      0 ≤ acc → acc < PInt →
      (∀ jt ∈ rest,
        (((all.filter (fun kt => kt.1 ≠ jt.1)).map
          (fun kt => (jt.2.x : Fp) - (kt.2.x : Fp))).prod ≠ 0)) →
      ∃ result, combineLoop all rest acc = .ok result ∧
        0 ≤ result ∧ result < PInt ∧
        (result : Fp) = (acc : Fp) +
          (rest.map (fun jt =>
            (jt.2.y : Fp) *
            (((all.filter (fun kt => kt.1 ≠ jt.1)).map
              (fun kt => -(kt.2.x : Fp))).prod *
             (((all.filter (fun kt => kt.1 ≠ jt.1)).map
              (fun kt => (jt.2.x : Fp) - (kt.2.x : Fp))).prod)⁻¹))).sum := by
  intro rest
  induction rest with
  | nil =>
      intro acc h0 h1 _
      exact ⟨acc, rfl, h0, h1, by simp⟩
  | cons jt t ih =>
      intro acc h0 h1 hinv
      obtain ⟨⟨hn0, hn1, hd0, hd1⟩, hnum, hden⟩ :=
        lagrangeStep_spec all jt.1 jt.2.x
      have hdenne : ((lagrangeStep all jt.1 jt.2.x).2 : Fp) ≠ 0 := by
        rw [hden]
        exact hinv jt (List.mem_cons_self jt t)
      obtain ⟨v, hv, hvinv⟩ :=
        modInverse_spec (lagrangeStep all jt.1 jt.2.x).2 hd0 hd1 hdenne
      have hacc' := emod_P_range (acc + jt.2.y * ((lagrangeStep all jt.1 jt.2.x).1 * v % PInt))
      obtain ⟨result, hres, hr0, hr1, hrval⟩ :=
        ih ((acc + jt.2.y * ((lagrangeStep all jt.1 jt.2.x).1 * v % PInt)) % PInt)
          hacc'.1 hacc'.2
          (fun kt hk => hinv kt (List.mem_cons_of_mem jt hk))
      refine ⟨result, ?_, hr0, hr1, ?_⟩
      · show combineLoop all (jt :: t) acc = .ok result
        rw [show (jt : Nat × Share) = (jt.1, jt.2) from rfl]
        rw [combineLoop]
        simp only [hv]
        exact hres
      · rw [hrval, intCast_emod_P]
        push_cast
        rw [intCast_emod_P]
        push_cast
        rw [hnum, hvinv, hden]
        rw [List.map_cons, List.sum_cons]
        ring

/-! ## From list folds over `enum` to `Finset` sums and products -/

/-- A mapped sum over `List.enumFrom` as a sum over `Fin`. -/
theorem list_enumFrom_map_sum {α : Type} (g : Nat × α → Fp) :
    ∀ (l : List α) (off : Nat),
      ((l.enumFrom off).map g).sum =
        ∑ i : Fin l.length, g (off + (i : Nat), l.get i) := by
  intro l
  induction l with
  | nil => intro off; simp
  | cons a t ih =>
      intro off
      rw [List.enumFrom, List.map_cons, List.sum_cons, ih (off + 1)]
      simp only [List.length_cons]
      rw [Fin.sum_univ_succ]
      simp only [List.length_cons, List.get_cons_zero, Fin.val_zero, Nat.add_zero]
      congr 1
      refine Finset.sum_congr rfl ?_
      intro i _
      have harg : off + 1 + (i : Nat) = off + ((i : Nat) + 1) := by omega
      rw [harg]
      rfl

/-- A mapped product over a filtered `List.enumFrom` as a product over
`Fin`, with skipped positions contributing `1`. -/
theorem list_enumFrom_filter_map_prod {α : Type} (i₀ : Nat) (g : Nat × α → Fp) :
    ∀ (l : List α) (off : Nat),
      (((l.enumFrom off).filter (fun jt => jt.1 ≠ i₀)).map g).prod =
        ∏ i : Fin l.length,
          if off + (i : Nat) ≠ i₀ then g (off + (i : Nat), l.get i) else 1 := by
  intro l
  induction l with
  | nil => intro off; simp
  | cons a t ih =>
      intro off
      rw [List.enumFrom]
      simp only [List.length_cons]
      rw [Fin.prod_univ_succ]
      by_cases h : off = i₀
      · have hcond : ¬ ((off, a).1 ≠ i₀) := by simpa using h
        rw [List.filter_cons_of_neg (by simpa using h)]
        rw [ih (off + 1)]
        simp only [List.length_cons, Fin.val_zero, Nat.add_zero, List.get_cons_zero]
        rw [if_neg (by simpa using h)]
        rw [one_mul]
        refine Finset.prod_congr rfl ?_
        intro i _
        have harg : off + 1 + (i : Nat) = off + ((i : Nat) + 1) := by omega
        rw [harg]
        rfl
      · rw [List.filter_cons_of_pos (by simpa using h)]
        rw [List.map_cons, List.prod_cons, ih (off + 1)]
        simp only [List.length_cons, Fin.val_zero, Nat.add_zero, List.get_cons_zero]
        rw [if_pos (by simpa using h)]
        congr 1
        refine Finset.prod_congr rfl ?_
        intro i _
        have harg : off + 1 + (i : Nat) = off + ((i : Nat) + 1) := by omega
        rw [harg]
        rfl

/-! ## Populating the main theorem: shares produced by `SplitSecret` -/

/-- Inversion of a successful `splitSecret`: the checks passed and the
share list is the polynomial evaluated at `1..N`. -/
theorem splitSecret_inv {randCoeffs : List Int} {secret : List Nat}
    {threshold totalShares : Nat} {shares : List Share}
    (h : splitSecret randCoeffs secret threshold totalShares = .ok shares) :
    threshold ≤ totalShares ∧ 1 ≤ threshold ∧
    ((beBytesToNat secret : Int) < PInt) ∧
    shares = (List.range totalShares).map (fun i =>
      { x := ((i : Int) + 1)
        y := evaluatePolynomial
          ((beBytesToNat secret : Int) :: randCoeffs.take (threshold - 1))
          ((i : Int) + 1) }) := by
  rw [splitSecret] at h
  by_cases h1 : threshold > totalShares
  · rw [if_pos h1] at h; cases h
  rw [if_neg h1] at h
  by_cases h2 : threshold < 1
  · rw [if_pos h2] at h; cases h
  rw [if_neg h2] at h
  by_cases h3 : totalShares < 1
  · rw [if_pos h3] at h; cases h
  rw [if_neg h3] at h
  by_cases h4 : PInt ≤ (beBytesToNat secret : Int)
  · rw [if_pos h4] at h; cases h
  rw [if_neg h4] at h
  refine ⟨by omega, by omega, by omega, ?_⟩
  cases h
  rfl

/-- A list of shares with pairwise-distinct x-coordinates passes the
duplicate scan. -/
theorem hasDupX_eq_false {l : List Share}
    (h : l.Pairwise (fun a b => a.x ≠ b.x)) : hasDupX l = false := by
  induction l with
  | nil => rfl
  | cons s t ih =>
      rw [hasDupX, Bool.or_eq_false_iff]
      rcases List.pairwise_cons.mp h with ⟨hhead, htail⟩
      refine ⟨?_, ih htail⟩
      rw [List.any_eq_false]
      intro u hu
      simpa using (hhead u hu).symm

/-- Membership in `enumFrom` exposes the index and element. -/
theorem mem_enumFrom_spec {α : Type} :
    ∀ (l : List α) (off : Nat) (jt : Nat × α), jt ∈ l.enumFrom off →
      ∃ i : Fin l.length, jt = (off + (i : Nat), l.get i) := by
  intro l
  induction l with
  | nil => intro off jt h; cases h
  | cons a t ih =>
      intro off jt h
      rw [List.enumFrom] at h
      rcases List.mem_cons.mp h with h | h
      · exact ⟨⟨0, Nat.succ_pos _⟩, by simpa using h⟩
      · obtain ⟨i, hi⟩ := ih (off + 1) jt h
        refine ⟨⟨(i : Nat) + 1, Nat.succ_lt_succ i.isLt⟩, ?_⟩
        rw [hi]
        have : off + 1 + (i : Nat) = off + ((i : Nat) + 1) := by omega
        rw [this]
        rfl

/-! ## CombineShares recovers the constant term -/

set_option maxHeartbeats 1000000 in
/-- If every share in `S` lies on the polynomial with coefficient list
`c0 :: rest` (mod p), `S` has at least as many shares as coefficients, and
the x-coordinates of `S` are distinct in `F_p`, then `CombineShares S`
succeeds and returns the byte encoding of `c0`. -/
theorem combineShares_interpolates (c0 : Int) (rest : List Int) (S : List Share)
    (hS : 1 ≤ S.length)
    (hfit : (c0 :: rest).length ≤ S.length)
    (hy : ∀ s ∈ S, s.y = evaluatePolynomial (c0 :: rest) s.x)
    (hdistF : ∀ (i j : Fin S.length), i ≠ j →
      ((S.get i).x : Fp) ≠ ((S.get j).x : Fp))
    (hc00 : 0 ≤ c0) (hc0P : c0 < PInt) :
    combineShares S = .ok (natToBytes c0.toNat) := by
  haveI : Fact (Nat.Prime shamirPrime) := ⟨shamirPrime_prime⟩
  have henum : S.enum = S.enumFrom 0 := rfl
  -- values at the nodes
  have hyF : ∀ i : Fin S.length, ((S.get i).y : Fp) =
      (polyOfList ((c0 :: rest).map (Int.cast : Int → Fp))).eval
        (((S.get i).x : Fp)) := by
    intro i
    rw [hy (S.get i) (S.get_mem i.1 i.2), evaluatePolynomial_cast, polyOfList_eval]
  -- the nodes are injective
  have hInj : Set.InjOn (fun i : Fin S.length => ((S.get i).x : Fp))
      ↑(Finset.univ : Finset (Fin S.length)) := by
    intro i _ j _ hij
    by_contra hne
    exact hdistF i j hne hij
  -- degree bound
  have hdeg : (polyOfList ((c0 :: rest).map (Int.cast : Int → Fp))).degree <
      ((Finset.univ : Finset (Fin S.length)).card : WithBot Nat) := by
    have h1 := polyOfList_degree_lt ((c0 :: rest).map (Int.cast : Int → Fp))
    rw [List.length_map] at h1
    refine h1.trans_le ?_
    rw [Finset.card_univ, Fintype.card_fin]
    exact_mod_cast hfit
  -- Lagrange interpolation at the nodes
  have hinterp := Lagrange.eq_interpolate
    (s := (Finset.univ : Finset (Fin S.length)))
    (v := fun i => ((S.get i).x : Fp)) hInj hdeg
  -- evaluation of the interpolation identity at zero
  have heval : (polyOfList ((c0 :: rest).map (Int.cast : Int → Fp))).eval 0 =
      ∑ i : Fin S.length,
        (polyOfList ((c0 :: rest).map (Int.cast : Int → Fp))).eval
            (((S.get i).x : Fp)) *
          (Lagrange.basis Finset.univ
            (fun j : Fin S.length => ((S.get j).x : Fp)) i).eval 0 := by
    conv_lhs => rw [hinterp]
    rw [Lagrange.interpolate_apply, Polynomial.eval_finset_sum]
    refine Finset.sum_congr rfl ?_
    intro i _
    rw [Polynomial.eval_mul, Polynomial.eval_C]
  -- the Lagrange basis at zero, as `if`-guarded products over all indices
  have herase : ∀ (g : Fin S.length → Fp) (i : Fin S.length),
      (∏ j ∈ Finset.univ.erase i, g j) =
        ∏ j : Fin S.length, if j ≠ i then g j else 1 := by
    intro g i
    rw [← Finset.filter_ne' Finset.univ i, Finset.prod_filter]
  have hbasis : ∀ i : Fin S.length,
      (Lagrange.basis Finset.univ
          (fun j : Fin S.length => ((S.get j).x : Fp)) i).eval 0 =
        (∏ j : Fin S.length, if j ≠ i then -((S.get j).x : Fp) else 1) *
        (∏ j : Fin S.length,
          if j ≠ i then ((S.get i).x : Fp) - ((S.get j).x : Fp) else 1)⁻¹ := by
    intro i
    rw [Lagrange.basis, Polynomial.eval_prod]
    have h1 : ∀ j ∈ Finset.univ.erase i,
        (Lagrange.basisDivisor ((S.get i).x : Fp) ((S.get j).x : Fp)).eval 0 =
        (-((S.get j).x : Fp)) * (((S.get i).x : Fp) - ((S.get j).x : Fp))⁻¹ := by
      intro j _
      rw [Lagrange.basisDivisor]
      rw [Polynomial.eval_mul, Polynomial.eval_C, Polynomial.eval_sub,
        Polynomial.eval_X, Polynomial.eval_C]
      ring
    rw [Finset.prod_congr rfl h1, Finset.prod_mul_distrib,
      Finset.prod_inv_distrib, herase, herase]
  -- the denominators are invertible
  have hdenne : ∀ jt ∈ S.enum,
      (((S.enum.filter (fun kt => kt.1 ≠ jt.1)).map
        (fun kt => (jt.2.x : Fp) - (kt.2.x : Fp))).prod ≠ 0) := by
    rw [henum]
    intro jt hjt
    obtain ⟨i, rfl⟩ := mem_enumFrom_spec S 0 jt hjt
    rw [list_enumFrom_filter_map_prod]
    rw [Finset.prod_ne_zero_iff]
    intro j _
    by_cases hcond : (0 + (j : Nat) ≠ 0 + (i : Nat))
    · rw [if_pos hcond]
      have hji : j ≠ i := by
        intro hji
        exact hcond (by rw [hji])
      have := hdistF i j (Ne.symm hji)
      exact sub_ne_zero.mpr this
    · rw [if_neg hcond]
      exact one_ne_zero
  -- run the loop
  obtain ⟨result, hres, hr0, hrP, hrval⟩ :=
    combineLoop_spec S.enum S.enum 0 le_rfl PInt_pos hdenne
  -- the loop's sum is the interpolation sum
  have hsum : ((S.enum.map (fun jt =>
      (jt.2.y : Fp) *
      (((S.enum.filter (fun kt => kt.1 ≠ jt.1)).map
        (fun kt => -(kt.2.x : Fp))).prod *
       (((S.enum.filter (fun kt => kt.1 ≠ jt.1)).map
        (fun kt => (jt.2.x : Fp) - (kt.2.x : Fp))).prod)⁻¹))).sum) =
      ∑ i : Fin S.length,
        (polyOfList ((c0 :: rest).map (Int.cast : Int → Fp))).eval
            (((S.get i).x : Fp)) *
          ((∏ j : Fin S.length, if j ≠ i then -((S.get j).x : Fp) else 1) *
           (∏ j : Fin S.length,
             if j ≠ i then ((S.get i).x : Fp) - ((S.get j).x : Fp) else 1)⁻¹) := by
    rw [henum, list_enumFrom_map_sum]
    refine Finset.sum_congr rfl ?_
    intro i _
    rw [list_enumFrom_filter_map_prod, list_enumFrom_filter_map_prod]
    rw [← hyF i]
    simp only [Nat.zero_add, ne_eq, Fin.val_eq_val]
  -- the polynomial at zero is the constant term
  have hf0 : (polyOfList ((c0 :: rest).map (Int.cast : Int → Fp))).eval 0 =
      (c0 : Fp) := by
    rw [polyOfList_eval, List.map_cons, evalZ_cons]
    ring
  -- conclude the value of the loop
  have hcast : (result : Fp) = (c0 : Fp) := by
    rw [hrval, hsum]
    push_cast
    rw [zero_add]
    conv_rhs => rw [← hf0, heval]
    refine Finset.sum_congr rfl ?_
    intro i _
    rw [hbasis i]
  have hresult : result = c0 := int_eq_of_cast_eq hr0 hrP hc00 hc0P hcast
  -- assemble `combineShares`
  have hdup : hasDupX S = false := by
    refine hasDupX_eq_false ?_
    refine List.pairwise_iff_get.mpr ?_
    intro i j hij heq
    exact hdistF i j (Fin.ne_of_lt hij) (by rw [heq])
  rw [combineShares]
  rw [if_neg (by omega : ¬ S.length < 1)]
  have hdup' : ¬ (hasDupX S = true) := by rw [hdup]; simp
  rw [if_neg hdup']
  rw [hres, hresult]

/-- C2: for every secret below the field modulus, a successful
`SplitSecret(secret, T, N)` returns shares with x-coordinates `1..N`, and
every sub-collection of at least `T` of those shares with pairwise-distinct
x-coordinates recombines under `CombineShares` to the original secret (the
bound `N < 2^63` reflects the Go `int` share count).  The returned bytes
are the minimal big-endian encoding of the secret integer. -/
theorem C2_split_combine_roundtrip (randCoeffs : List Int) (secret : List Nat)
    (threshold totalShares : Nat) (shares S : List Share)
    (hsplit : splitSecret randCoeffs secret threshold totalShares = .ok shares)
    (hN : totalShares < 2 ^ 63)
    (hsub : ∀ s ∈ S, s ∈ shares)
    (hlen : threshold ≤ S.length)
    (hdist : S.Pairwise (fun a b => a.x ≠ b.x)) :
    shares.map Share.x =
      (List.range totalShares).map (fun (i : Nat) => ((i : Int) + 1)) ∧
    combineShares S = .ok (natToBytes (beBytesToNat secret)) := by
  obtain ⟨hTN, hT1, hsecP, hshares⟩ := splitSecret_inv hsplit
  constructor
  · rw [hshares, List.map_map]
    rfl
  · have hmem : ∀ s ∈ S, ∃ m : Nat, m < totalShares ∧ s.x = (m : Int) + 1 ∧
        s.y = evaluatePolynomial
          ((beBytesToNat secret : Int) :: randCoeffs.take (threshold - 1)) s.x := by
      intro s hs
      have hsh := hsub s hs
      rw [hshares] at hsh
      obtain ⟨m, hm, rfl⟩ := List.mem_map.mp hsh
      exact ⟨m, List.mem_range.mp hm, rfl, rfl⟩
    have hxb : ∀ s ∈ S, 1 ≤ s.x ∧ s.x ≤ (totalShares : Int) := by
      intro s hs
      obtain ⟨m, hm, hx, _⟩ := hmem s hs
      rw [hx]
      constructor
      · omega
      · have : (m : Int) < (totalShares : Int) := by exact_mod_cast hm
        omega
    have hS1 : 1 ≤ S.length := le_trans hT1 hlen
    have hdistF : ∀ (i j : Fin S.length), i ≠ j →
        ((S.get i).x : Fp) ≠ ((S.get j).x : Fp) := by
      intro i j hij
      have hxy : (S.get i).x ≠ (S.get j).x := by
        rcases lt_or_gt_of_ne hij with h | h
        · exact (List.pairwise_iff_get.mp hdist) i j h
        · exact ((List.pairwise_iff_get.mp hdist) j i h).symm
      intro heq
      have hi := hxb (S.get i) (S.get_mem i.1 i.2)
      have hj := hxb (S.get j) (S.get_mem j.1 j.2)
      have hz : (((S.get i).x - (S.get j).x : Int) : Fp) = 0 := by
        push_cast
        rw [heq]
        ring
      have habs : |(S.get i).x - (S.get j).x| < PInt := by
        have hb : (totalShares : Int) < 2 ^ 63 := by exact_mod_cast hN
        have hP : (2 : Int) ^ 63 < PInt := by norm_num [PInt, shamirPrime]
        rw [abs_lt]
        omega
      exact cast_ne_zero_of_abs_lt (sub_ne_zero.mpr hxy) habs hz
    have hfit : ((beBytesToNat secret : Int) ::
        randCoeffs.take (threshold - 1)).length ≤ S.length := by
      simp only [List.length_cons, List.length_take]
      have hmin : min (threshold - 1) randCoeffs.length ≤ threshold - 1 :=
        min_le_left _ _
      omega
    have happ := combineShares_interpolates (beBytesToNat secret : Int)
      (randCoeffs.take (threshold - 1)) S hS1 hfit
      (by intro s hs; obtain ⟨m, _, _, hys⟩ := hmem s hs; exact hys)
      hdistF (by exact_mod_cast Nat.zero_le _) hsecP
    rw [happ, Int.toNat_natCast]

set_option maxRecDepth 40000 in
/-- C2 witness: splitting secret `[5]` with threshold 2 into 3 shares and
recombining the (out-of-order) subset of shares 3 and 1 returns the
secret. -/
theorem C2_split_combine_roundtrip_witness :
    combineShares [{ x := 3, y := 26 }, { x := 1, y := 12 }] =
      .ok (natToBytes (beBytesToNat [5])) :=
  (C2_split_combine_roundtrip [7] [5] 2 3
    [{ x := 1, y := 12 }, { x := 2, y := 19 }, { x := 3, y := 26 }]
    [{ x := 3, y := 26 }, { x := 1, y := 12 }]
    rfl (by decide) (by decide) (by decide) (by decide)).2

/-! ## C3: `CombineShares` and the threshold -/

set_option maxRecDepth 40000 in
/-- C3 counterexample: a split with threshold `T = 2` produces shares of
which a SINGLE one (fewer than `T`) still combines successfully:
`CombineShares` returns `ok [12]` (not the secret `[5]`, and not an
`InsufficientShares` error), refuting "fewer than T shares makes
combination fail with an error". -/
theorem C3_counterexample :
    splitSecret [7] [5] 2 3 =
      .ok [{ x := 1, y := 12 }, { x := 2, y := 19 }, { x := 3, y := 26 }] ∧
    combineShares [{ x := 1, y := 12 }] = .ok [12] :=
  ⟨rfl, rfl⟩

set_option maxRecDepth 40000 in
/-- C3 (amended): `CombineShares` has no knowledge of any threshold; it
fails only on an empty list, a duplicated x-coordinate, or a
non-invertible denominator.  In particular it accepts a single share
(below any split threshold `T ≥ 2`) and returns that share's y-value. -/
theorem C3_combine_ignores_threshold (s : Share) (h0 : 0 ≤ s.y)
    (hP : s.y < PInt) :
    combineShares [s] = .ok (natToBytes s.y.toNat) := by
  have hmi : modInverse 1 PInt = some 1 := rfl
  have hmod1 : ((1 : Int) * 1) % PInt = 1 := rfl
  rw [combineShares]
  rw [if_neg (by simp : ¬ ([s].length < 1))]
  have hdup : hasDupX [s] = false := rfl
  rw [if_neg (by rw [hdup]; simp)]
  have hstep : lagrangeStep [(0, s)] 0 s.x = (1, 1) := rfl
  have henum : ([s].enum) = [(0, s)] := rfl
  rw [henum]
  have hcl : combineLoop [(0, s)] [(0, s)] 0 = .ok s.y := by
    rw [combineLoop]
    simp only [hstep, hmi]
    rw [combineLoop]
    rw [hmod1, mul_one, zero_add, Int.emod_eq_of_lt h0 hP]
  rw [hcl]

/-- C3 witness: combining the single share `(1, 12)` of the threshold-2
split succeeds, via `C3_combine_ignores_threshold`. -/
theorem C3_combine_ignores_threshold_witness :
    combineShares [{ x := 1, y := 12 }] =
      .ok (natToBytes ((12 : Int)).toNat) :=
  C3_combine_ignores_threshold { x := 1, y := 12 } (by decide) (by decide)

/-! ## C4: the modulus of the Shamir arithmetic -/

/-- C4 counterexample: the hard-coded modulus is NOT the secp256k1 field
prime `2^256 - 2^32 - 977`. -/
theorem C4_counterexample : shamirPrime ≠ 2 ^ 256 - 2 ^ 32 - 977 := by
  decide

/-- C4 (amended): the modulus used by `NewShamirSecretSharing` equals
`2^256 - 189`, which is (provably) prime — but it is not the secp256k1
field prime. -/
theorem C4_modulus_value :
    shamirPrime = 2 ^ 256 - 189 ∧ Nat.Prime shamirPrime :=
  ⟨by decide, shamirPrime_prime⟩
